import Mathlib

/-!
Verification of the news-get crawler (src/src/news_crawler.py,
src/src/crawler/news_crawler_v2.py, src/src/models/news_item.py,
src/src/utils/file_manager.py) against its natural-language specification.

The embedding is shallow: Python strings become `String`/`List Char`
(Python `len` counts code points, as does `List Char` length), calendar
dates become the `Date` structure below with `datetime`'s validity rules,
and the network / file system / clock are an explicit oracle plus an
explicit state record threaded through the translated functions.
-/

/-- A calendar date as carried by Python `datetime` objects at midnight
(the crawler only ever manipulates midnight-truncated datetimes). -/
structure Date where
  year : Nat
  month : Nat
  day : Nat
deriving DecidableEq, Repr

/-- Gregorian leap-year rule, as implemented by Python `datetime`. -/
def isLeap (y : Nat) : Bool :=
  (y % 4 == 0 && y % 100 != 0) || y % 400 == 0

/-- Number of days in a month, as enforced by the `datetime` constructor. -/
def daysInMonth (y m : Nat) : Nat :=
  if m == 2 then (if isLeap y then 29 else 28)
  else if m == 4 || m == 6 || m == 9 || m == 11 then 30
  else 31

/-- Validity of a date per the `datetime(year, month, day)` constructor:
year in 1..9999 (MINYEAR..MAXYEAR), month 1..12, day within the month. -/
def Date.validB (d : Date) : Bool :=
  1 ≤ d.year && d.year ≤ 9999 && 1 ≤ d.month && d.month ≤ 12 &&
  1 ≤ d.day && d.day ≤ daysInMonth d.year d.month

/-- `datetime(y, m, d)` as a fallible constructor: `none` models the
`ValueError` raised on an invalid calendar date. -/
def mkValidDate (y m d : Nat) : Option Date :=
  if (Date.mk y m d).validB then some (Date.mk y m d) else none

/-- Strict lexicographic comparison of dates, matching `datetime < datetime`
for midnight-truncated values. -/
def Date.lt (a b : Date) : Bool :=
  a.year < b.year ||
  (a.year == b.year && (a.month < b.month ||
    (a.month == b.month && a.day < b.day)))

/-- The decimal digit character for `n % 10`, as produced by Python's
zero-padded `%Y`/`%m`/`%d` formatting. -/
def digitChar (n : Nat) : Char := Char.ofNat (48 + n % 10)

/-- Numeric value of a digit character (inverse of `digitChar` on digits). -/
def digitVal (c : Char) : Nat := c.toNat - 48

/-- The four characters of `strftime('%Y')` (zero-padded to width 4, the
behaviour documented for `datetime.strftime`), for years up to 9999. -/
def chars4 (n : Nat) : List Char :=
  [digitChar (n / 1000), digitChar (n / 100), digitChar (n / 10), digitChar n]

/-- The two characters of `strftime('%m')` / `strftime('%d')` (zero-padded
to width 2), for values up to 99. -/
def chars2 (n : Nat) : List Char :=
  [digitChar (n / 10), digitChar n]

/-- Characters of `strftime('%Y-%m-%d')`. -/
def dashDateChars (d : Date) : List Char :=
  chars4 d.year ++ ['-'] ++ chars2 d.month ++ ['-'] ++ chars2 d.day

/-- `strftime('%Y-%m-%d')`. -/
def fmtDashDate (d : Date) : String := String.mk (dashDateChars d)

/-- Characters of `strftime('%Y年%m月%d日')`. -/
def cnDateChars (d : Date) : List Char :=
  chars4 d.year ++ ['年'] ++ chars2 d.month ++ ['月'] ++ chars2 d.day ++ ['日']

/-- `strftime('%Y年%m月%d日')`, the Chinese date string used throughout. -/
def fmtCnDate (d : Date) : String := String.mk (cnDateChars d)

/-- `strftime('%Y%m%d')`, the news-file basename. -/
def fmtCompact (d : Date) : String :=
  String.mk (chars4 d.year ++ chars2 d.month ++ chars2 d.day)

/-- Decimal rendering of a natural number, most significant digit first;
the first argument is recursion fuel (`n` itself always suffices, as the
value shrinks by a factor of ten per step). -/
def natDecAux : Nat → Nat → List Char → List Char
  | 0, _, acc => acc
  | fuel + 1, n, acc =>
    if n = 0 then acc else natDecAux fuel (n / 10) (digitChar n :: acc)

/-- Python `str(n)` for a natural number. -/
def natDec (n : Nat) : String :=
  if n == 0 then "0" else String.mk (natDecAux n n [])

/-! ## The Missing-Date Ledger (not_exist.md)

`update_not_exist_file` and `remove_date_from_not_exist` re-parse the
ledger file with `re.findall(r'- (\d{4}-\d{2}-\d{2})', content)` and
rewrite it wholesale.  The scanner below implements exactly that regex
(leftmost, non-overlapping matches, continuing after each match; every
match spans exactly 12 characters). -/

/-- Attempts the regex `- (\d{4}-\d{2}-\d{2})` at the head of the list;
returns the captured 10-character date on success. -/
def ledgerMatchAt (cs : List Char) : Option (List Char) :=
  match cs with
  | a :: b :: rest =>
    if a = '-' && b = ' ' then
      match rest with
      | y1 :: y2 :: y3 :: y4 :: s1 :: m1 :: m2 :: s2 :: d1 :: d2 :: _ =>
        if y1.isDigit && y2.isDigit && y3.isDigit && y4.isDigit &&
           s1 = '-' && m1.isDigit && m2.isDigit &&
           s2 = '-' && d1.isDigit && d2.isDigit then
          some [y1, y2, y3, y4, '-', m1, m2, '-', d1, d2]
        else none
      | _ => none
    else none
  | _ => none

/-- `re.findall(r'- (\d{4}-\d{2}-\d{2})', ·)`: all matches, scanning left
to right.  `re.findall` resumes after the end of each 12-character match;
scanning every position instead is extensionally identical for this
pattern, because no new match can begin inside a match: within
`- dddd-dd-dd` the only later `'-'` characters (offsets 6 and 9) are
followed by digits, never by the `' '` a new match would require. -/
def findLedgerDates : List Char → List (List Char)
  | [] => []
  | c :: rest =>
    match ledgerMatchAt (c :: rest) with
    | some dstr => dstr :: findLedgerDates rest
    | none => findLedgerDates rest

/-- `datetime.strptime(s, '%Y-%m-%d')` on a captured ledger token, with the
`ValueError` on an impossible calendar date modelled as `none`. -/
def parseLedgerDate (s : String) : Option Date :=
  match s.toList with
  | [a, b, c, d, h1, e, f, h2, g, h] =>
    if a.isDigit && b.isDigit && c.isDigit && d.isDigit && h1 = '-' &&
       e.isDigit && f.isDigit && h2 = '-' && g.isDigit && h.isDigit then
      mkValidDate (1000 * digitVal a + 100 * digitVal b + 10 * digitVal c + digitVal d)
        (10 * digitVal e + digitVal f) (10 * digitVal g + digitVal h)
    else none
  | _ => none

/-- The `- YYYY-MM-DD` tokens of a ledger file, as strings
(`date_matches` in the source). -/
def ledgerMatches (content : String) : List String :=
  (findLedgerDates content.toList).map String.mk

/-- The parsed dates of a ledger file: each token run through `strptime`,
unparseable tokens silently dropped (`all_dates` in the source). -/
def parseAllDates (content : String) : List Date :=
  (ledgerMatches content).filterMap parseLedgerDate

/-- Sorted-insert without duplicates: the building block for Python's
`sorted(set(dates))` on a list of datetimes. -/
def insertDate (x : Date) : List Date → List Date
  | [] => [x]
  | y :: ys =>
    if Date.lt x y then x :: y :: ys
    else if x = y then y :: ys
    else y :: insertDate x ys

/-- Python `sorted(set(l))` for a list of dates: the strictly increasing
enumeration of the set of elements. -/
def sortDedup (l : List Date) : List Date := l.foldr insertDate []

/-- Fixed prefix of the ledger file up to the interpolated update time. -/
def ledgerPre : List Char :=
  "# 缺失的新闻日期\n\n本文档记录所有未找到新闻的日期。\n\n**更新时间**: ".toList

/-- Fixed part of the ledger header after the update time. -/
def ledgerPost : List Char := "\n\n## 缺失日期列表\n\n".toList

/-- Header of the rewritten ledger file (update time interpolated). -/
def ledgerHeaderChars (ts : List Char) : List Char :=
  ledgerPre ++ ts ++ ledgerPost

/-- Footer of the rewritten ledger file with the literal total count. -/
def ledgerFooterChars (n : Nat) : List Char :=
  "\n---\n\n**总计**: ".toList ++ (natDec n).toList ++ " 个日期缺失新闻\n".toList

/-- Month-group heading inserted when the year-month changes. -/
def monthHeadChars (first : Bool) (y m : Nat) : List Char :=
  (if first then [] else ['\n']) ++ "### ".toList ++ chars4 y ++ ['年'] ++ chars2 m ++ "月\n\n".toList

/-- One `- YYYY-MM-DD (YYYY年MM月DD日)` bullet line. -/
def bulletChars (d : Date) : List Char :=
  ['-', ' '] ++ dashDateChars d ++ [' ', '('] ++ cnDateChars d ++ [')', '\n']

/-- The month-grouped body of the ledger: the source's loop over
`all_dates` carrying `current_month`. -/
def renderEntriesChars : Option (Nat × Nat) → List Date → List Char
  | _, [] => []
  | cur, d :: ds =>
    let mk := (d.year, d.month)
    let head :=
      if cur = some mk then []
      else monthHeadChars (cur = none) d.year d.month
    head ++ bulletChars d ++ renderEntriesChars (some mk) ds

/-- The full rewritten ledger file for a given update time and date list. -/
def renderLedger (ts : String) (ds : List Date) : String :=
  String.mk (ledgerHeaderChars ts.toList ++ renderEntriesChars none ds ++
    ledgerFooterChars ds.length)

/-- An update-time string is clean when it contains no `'-'` immediately
followed by `' '` (the character after the timestamp in the header is
always `'\n'`).  True of every `strftime('%Y-%m-%d %H:%M:%S')` output;
it guarantees the interpolated header adds no spurious regex match. -/
def cleanChars (cs : List Char) : Bool :=
  match cs with
  | [] => true
  | [_] => true
  | a :: b :: rest => !(a = '-' && b = ' ') && cleanChars (b :: rest)

/-- Cleanliness of an interpolated update-time string. -/
def TsClean (ts : String) : Bool := cleanChars (ts.toList ++ ['\n'])

/-- Strengthening of `cleanChars` used to reason about segments of the
rendered ledger: no `'-'` followed by `' '` inside, and the final
character is not `'-'` (so nothing can pair badly across a boundary). -/
def cleanAny : List Char → Bool
  | [] => true
  | [a] => !(a = '-')
  | a :: b :: rest => !(a = '-' && b = ' ') && cleanAny (b :: rest)

/-! ## Crawl state and the ledger mutators

The crawler's externally visible state: the set of saved news files
(keyed by their `YYYYMMDD.md` basename, as `check_news_file_exists`
keys them), the `not_exist.md` ledger (`none` = file does not exist),
and a log of network requests (newest first) used to express
"zero network calls" properties. -/

/-- One network request made by the crawler. -/
inductive NetEvent
  | gov
  | selenium
  | legacy (zeroPad : Bool) (attempt : Nat)
  | dir (zeroPad : Bool)
  | article (url : String)
deriving DecidableEq, Repr

/-- Whether an event is a directory-listing request. -/
def NetEvent.isDir : NetEvent → Bool
  | .dir _ => true
  | _ => false

/-- The crawler's file-system state plus the network-request log.
`files` maps each saved basename (`YYYYMMDD.md`) to the written text. -/
structure CrawlState where
  files : List (String × String)
  ledger : Option String
  net : List NetEvent
deriving Repr

/-- Record a network request (newest first). -/
def pushNet (st : CrawlState) (e : NetEvent) : CrawlState :=
  { st with net := e :: st.net }

/-- `check_news_file_exists(date)`: does `YYYYMMDD.md` exist? -/
def check_news_file_exists (st : CrawlState) (d : Date) : Bool :=
  st.files.any (fun p => p.1 = fmtCompact d ++ ".md")

/-- Overwriting file write (`Path.write_text`). -/
def writeFile (st : CrawlState) (fname text : String) : CrawlState :=
  { st with files := st.files.filter (fun p => !(p.1 = fname)) ++ [(fname, text)] }

/-- The stored text of a saved file. -/
def fileContent (st : CrawlState) (fname : String) : Option String :=
  (st.files.find? (fun p => p.1 = fname)).map Prod.snd

/-- The source filters the incoming dates against the set of already
recorded date strings, also deduplicating within the incoming list
(`existing_dates.add(date_str)` as it goes). -/
def filterNewDates (seen : List String) : List Date → List Date
  | [] => []
  | d :: ds =>
    if fmtDashDate d ∈ seen then filterNewDates seen ds
    else d :: filterNewDates (fmtDashDate d :: seen) ds

/-- `update_not_exist_file(dates)`: parse the existing ledger, keep only
genuinely new dates, merge, `sorted(set(...))`, re-render grouped by
month with the count footer, and overwrite — or leave the file untouched
when nothing new arrived.  `ts` stands for `datetime.now().strftime(...)`. -/
def update_not_exist_file (ts : String) (st : CrawlState) (dates : List Date) : CrawlState :=
  if dates = [] then st
  else
    let existingContent := st.ledger.getD ""
    let dateMatches := ledgerMatches existingContent
    let newDates := filterNewDates dateMatches dates
    if newDates = [] then st
    else
      let allDates := (dateMatches.filterMap parseLedgerDate) ++ newDates
      let sorted := sortDedup allDates
      { st with ledger := some (renderLedger ts sorted) }

/-- `record_missing_date(date)` delegates to `update_not_exist_file([date])`. -/
def record_missing_date (ts : String) (st : CrawlState) (d : Date) : CrawlState :=
  update_not_exist_file ts st [d]

/-- `remove_date_from_not_exist(date)`: no-op when the file is absent;
otherwise re-parse, drop every entry whose `%Y-%m-%d` string equals the
target's, and rewrite only if something was actually dropped. -/
def remove_date_from_not_exist (ts : String) (st : CrawlState) (d : Date) : CrawlState :=
  match st.ledger with
  | none => st
  | some content =>
    let dateMatches := ledgerMatches content
    let allDates0 := dateMatches.filterMap parseLedgerDate
    let target := fmtDashDate d
    let allDates := allDates0.filter (fun x => decide (fmtDashDate x ≠ target))
    if allDates.length = dateMatches.length then st
    else { st with ledger := some (renderLedger ts (sortDedup allDates)) }

/-- Does the ledger currently list this date (after re-parsing, exactly as
the mutators re-parse it)? -/
def ledgerHasDate (st : CrawlState) (d : Date) : Bool :=
  d ∈ parseAllDates (st.ledger.getD "")

/-! ## The Content Formatter (format_news_content)

Lines are `List Char` (Python `len` = number of code points).  The one
operation in the function that could raise in Python is the subscript
`lines[next_line_idx]` inside the lookahead loop; it is modelled by a
throwing accessor, so the function lives in `Except String` and the
non-crash property is a real theorem.  Python `str.strip()` is modelled
over the ASCII whitespace characters (the inputs at hand contain no
exotic Unicode whitespace). -/

/-- ASCII whitespace as stripped by Python `str.strip()`. -/
def isPySpace (c : Char) : Bool :=
  c = ' ' || c = '\t' || c = '\n' || c = '\r' || c = '\x0b' || c = '\x0c'

/-- Python `line.strip()` over characters. -/
def stripChars (cs : List Char) : List Char :=
  ((cs.dropWhile isPySpace).reverse.dropWhile isPySpace).reverse

/-- Python `content.split('\n')` (note `''.split('\n') == ['']`). -/
def splitLines : List Char → List (List Char)
  | [] => [[]]
  | c :: rest =>
    if c = '\n' then [] :: splitLines rest
    else
      match splitLines rest with
      | l :: ls => (c :: l) :: ls
      | [] => [[c]]

/-- Python `sep.join(pieces)`. -/
def joinWith (sep : List Char) : List (List Char) → List Char
  | [] => []
  | [l] => l
  | l :: ls => l ++ sep ++ joinWith sep ls

/-- Is `pre` a prefix of `cs`? -/
def listIsPrefix : List Char → List Char → Bool
  | [], _ => true
  | _ :: _, [] => false
  | p :: ps, c :: cs => p = c && listIsPrefix ps cs

/-- Python `needle in hay` for strings (substring containment). -/
def containsSub (needle : List Char) : List Char → Bool
  | [] => listIsPrefix needle []
  | c :: cs => listIsPrefix needle (c :: cs) || containsSub needle cs

/-- `re.search(r'[。！？；]$', line)`: line ends in Chinese sentence-final
punctuation. -/
def endPunct (l : List Char) : Bool :=
  match l.getLast? with
  | some c => c = '。' || c = '！' || c = '？' || c = '；'
  | none => false

/-- Membership in the Chinese-numeral class `[一二三四五六七八九十]`. -/
def isCnNumeral (c : Char) : Bool :=
  c = '一' || c = '二' || c = '三' || c = '四' || c = '五' ||
  c = '六' || c = '七' || c = '八' || c = '九' || c = '十'

/-- After one enumerator character: absorb more of the same class, then
require `、` or `.` (the class and the delimiters are disjoint, so greedy
matching with backtracking reduces to this scan). -/
def enumTail (inClass : Char → Bool) : List Char → Bool
  | [] => false
  | c :: rest => if inClass c then enumTail inClass rest else (c = '、' || c = '.')

/-- `re.search(r'^[一二三四五六七八九十]+[、.]', line)`. -/
def cnEnum (l : List Char) : Bool :=
  match l with
  | c :: rest => isCnNumeral c && enumTail isCnNumeral rest
  | [] => false

/-- `re.match(r'^\d+[、.]', line)`. -/
def digitEnum (l : List Char) : Bool :=
  match l with
  | c :: rest => c.isDigit && enumTail Char.isDigit rest
  | [] => false

/-- `re.match(r'^【.*】', line)`: starts with `【` and later contains `】`. -/
def bracketTitle (l : List Char) : Bool :=
  match l with
  | c :: rest => c = '【' && rest.any (fun x => x = '】')
  | [] => false

/-- `re.match(r'^[（(].*[）)]', line)`. -/
def parenWrap (l : List Char) : Bool :=
  match l with
  | c :: rest => (c = '（' || c = '(') && rest.any (fun x => x = '）' || x = ')')
  | [] => false

/-- After the first digit of `\d+月\d+日` (or `\d+日`): absorb digits, then
require the delimiter (digits and the delimiter are disjoint). -/
def digitsThen (delim : Char) : List Char → Bool
  | [] => false
  | c :: rest => if c.isDigit then digitsThen delim rest else c = delim

/-- `re.search(r'\d+月\d+日', line)`: somewhere a digit run, `月`, a digit
run, `日`.  A match exists exactly when some digit is directly followed by
`月` and then a nonempty digit run ending at `日`. -/
def hasMonthDay : List Char → Bool
  | [] => false
  | c :: rest =>
    (c.isDigit && (match rest with
      | r :: rs =>
        r = '月' && (match rs with
          | r2 :: _ => r2.isDigit && digitsThen '日' rs
          | [] => false)
      | [] => false)) || hasMonthDay rest

/-- `re.search(r'当地时间|今天\(|昨日\(', line)` (the exclusion applied to a
candidate heading line). -/
def timeWords (l : List Char) : Bool :=
  containsSub "当地时间".toList l || containsSub "今天(".toList l ||
  containsSub "昨日(".toList l

/-- The keyword alternation tested on the lookahead line:
`\d+月\d+日|当地时间|今天\(|国家|国务院|中共中央|全国|教育部|工业和信息化部|市场监管总局`. -/
def nextKeyword (l : List Char) : Bool :=
  hasMonthDay l || containsSub "当地时间".toList l || containsSub "今天(".toList l ||
  containsSub "国家".toList l || containsSub "国务院".toList l ||
  containsSub "中共中央".toList l || containsSub "全国".toList l ||
  containsSub "教育部".toList l || containsSub "工业和信息化部".toList l ||
  containsSub "市场监管总局".toList l

/-- The heading-shape test of the armed-flag branch: length in [8, 60], no
sentence-final punctuation, no Chinese-numeral or arabic enumerator. -/
def titleShape (l : List Char) : Bool :=
  8 ≤ l.length && l.length ≤ 60 && !endPunct l && !cnEnum l && !digitEnum l

/-- The additional exclusions of the lookahead heading branch: no
`\d+月\d+日` date inside the line, no time words. -/
def titleShapeFull (l : List Char) : Bool :=
  titleShape l && !hasMonthDay l && !timeWords l

/-- Scanner state of `format_news_content`, mirroring its local variables. -/
structure FmtState where
  formatted : List (List Char)
  inMain : Bool
  inDetail : Bool
  nextTitle : Bool
  prevLine : List Char
  para : List (List Char)

/-- `lines[idx]`: the Python subscript, the one operation of the formatter
that raises (IndexError) when out of bounds. -/
def pyGetLine (lines : List (List Char)) (idx : Nat) : Except String (List Char) :=
  match lines.get? idx with
  | some l => Except.ok l
  | none => Except.error "IndexError"

/-- The lookahead `while next_line_idx < len(lines)` loop: find the first
non-blank following line and decide whether the current line is a heading
(keyword in the next line, or next line longer than 50); `false` when the
input is exhausted.  The first `Nat` is recursion fuel; `lines.length`
always suffices since the index strictly increases towards it. -/
def lookIsTitle (lines : List (List Char)) : Nat → Nat → Except String Bool
  | 0, _ => Except.ok false
  | fuel + 1, idx =>
    if idx < lines.length then
      match pyGetLine lines idx with
      | Except.error e => Except.error e
      | Except.ok raw =>
        let nl := stripChars raw
        if nl = [] then lookIsTitle lines fuel (idx + 1)
        else Except.ok (nextKeyword nl || nl.length > 50)
    else Except.ok false

/-- Flush the pending paragraph buffer (join with spaces, then a blank). -/
def flushPara (st : FmtState) : List (List Char) :=
  if st.para = [] then st.formatted
  else st.formatted ++ [joinWith [' '] st.para, []]

/-- One iteration of the formatter's scan loop for the line at index `i`
(needed for the lookahead), faithful to the branch order of the source. -/
def fncStep (lines : List (List Char)) (i : Nat) (raw : List Char) (st : FmtState) :
    Except String FmtState :=
  let line := stripChars raw
  if line = [] then
    Except.ok { st with
      formatted := flushPara st
      para := [] }
  else if containsSub "今日新闻联播主要内容".toList line ||
          containsSub "新闻联播主要内容".toList line then
    Except.ok { st with
      formatted := flushPara st ++ [line, []]
      para := []
      inMain := true
      prevLine := line }
  else if containsSub "以下为详细的文字版全文".toList line ||
          containsSub "以下为详细".toList line then
    Except.ok { st with
      formatted := flushPara st ++ (if st.inMain then [[]] else []) ++ [line, []]
      para := []
      inMain := false
      inDetail := true
      nextTitle := true
      prevLine := line }
  else if st.inMain && !st.inDetail then
    Except.ok { st with formatted := st.formatted ++ ['*' :: ' ' :: line] }
  else if st.inDetail then
    if st.nextTitle && titleShape line then
      Except.ok { st with
        formatted := flushPara st ++ ["### ".toList ++ line, []]
        para := []
        nextTitle := false
        prevLine := line }
    else if line = st.prevLine then
      Except.ok { st with prevLine := line }
    else if bracketTitle line then
      Except.ok { st with
        formatted := flushPara st ++ ["## ".toList ++ line, []]
        para := []
        prevLine := line }
    else if digitEnum line || parenWrap line then
      Except.ok { st with
        formatted := flushPara st ++ ["### ".toList ++ line, []]
        para := []
        prevLine := line }
    else if titleShapeFull line then
      match lookIsTitle lines lines.length (i + 1) with
      | Except.error e => Except.error e
      | Except.ok isT =>
        if isT then
          Except.ok { st with
            formatted := flushPara st ++ ["### ".toList ++ line, []]
            para := []
            prevLine := line }
        else
          Except.ok { st with
            formatted := flushPara st ++ [line, []]
            para := []
            prevLine := line }
    else
      Except.ok { st with
        formatted := flushPara st ++ [line, []]
        para := []
        prevLine := line }
  else
    Except.ok { st with
      formatted := flushPara st ++ [line, []]
      para := [] }

/-- The `for i, line in enumerate(lines)` loop (first `Nat` is fuel;
`lines.length` always suffices). -/
def fncLoop (lines : List (List Char)) : Nat → Nat → FmtState → Except String FmtState
  | 0, _, st => Except.ok st
  | fuel + 1, i, st =>
    if h : i < lines.length then
      match fncStep lines i (lines.get ⟨i, h⟩) st with
      | Except.error e => Except.error e
      | Except.ok st2 => fncLoop lines fuel (i + 1) st2
    else Except.ok st

/-- The final pass collapsing runs of blank (after-strip) lines to one. -/
def collapseBlanks : List (List Char) → Bool → List (List Char)
  | [], _ => []
  | l :: ls, prevEmpty =>
    if stripChars l = [] then
      if prevEmpty then collapseBlanks ls true
      else [] :: collapseBlanks ls true
    else l :: collapseBlanks ls false

/-- `format_news_content(content)`: split on newlines, scan with the state
machine, flush the trailing paragraph, collapse blank runs, re-join. -/
def format_news_content (content : String) : Except String String :=
  let lines := splitLines content.toList
  match fncLoop lines lines.length 0 ⟨[], false, false, false, [], []⟩ with
  | Except.error e => Except.error e
  | Except.ok st =>
    let fl := if st.para = [] then st.formatted
              else st.formatted ++ [joinWith [' '] st.para]
    Except.ok (String.mk (joinWith ['\n'] (collapseBlanks fl false)))

/-- The formatter as used by the fetch pipeline (it never raises; the
default is never reached, see the non-crash theorem). -/
def formatNewsTotal (s : String) : String :=
  match format_news_content s with
  | Except.ok r => r
  | Except.error _ => ""

/-- The lines of a formatter run, for stating which lines were emitted. -/
def outputLines (s : String) : List String :=
  (splitLines (formatNewsTotal s).toList).map String.mk

/-! ## URL builders, titles, and date extraction -/

/-- Uppercase hex digit. -/
def hexDigit (n : Nat) : Char :=
  if n % 16 < 10 then Char.ofNat (48 + n % 16) else Char.ofNat (55 + n % 16)

/-- Two-digit uppercase hex of a byte. -/
def hex2 (b : Nat) : List Char := [hexDigit (b / 16), hexDigit (b % 16)]

/-- UTF-8 encoding of one character, as byte values. -/
def utf8Bytes (c : Char) : List Nat :=
  let n := c.toNat
  if n < 128 then [n]
  else if n < 2048 then [192 + n / 64, 128 + n % 64]
  else if n < 65536 then [224 + n / 4096, 128 + n / 64 % 64, 128 + n % 64]
  else [240 + n / 262144, 128 + n / 4096 % 64, 128 + n / 64 % 64, 128 + n % 64]

/-- Characters left untouched by `urllib.parse.quote` with the default
`safe='/'`: ASCII alphanumerics, `_.-~`, and `/`. -/
def quoteSafe (c : Char) : Bool :=
  c.isAlpha || c.isDigit || c = '_' || c = '.' || c = '-' || c = '~' || c = '/'

/-- `urllib.parse.quote(s)`: percent-encode the UTF-8 bytes of every
non-safe character. -/
def pyQuote (s : String) : String :=
  String.mk (s.toList.foldr
    (fun c acc =>
      (if quoteSafe c then [c]
       else (utf8Bytes c).foldr (fun b a => '%' :: (hex2 b ++ a)) []) ++ acc) [])

/-- `urlparse(url).netloc` for the scheme-qualified URLs the crawler
builds: the text between `"://"` and the next `/`, `?` or `#`. -/
def afterScheme : List Char → Option (List Char)
  | [] => none
  | c :: rest =>
    match rest with
    | '/' :: '/' :: r2 => if c = ':' then some r2 else afterScheme rest
    | _ => afterScheme rest

/-- The host part of a URL (simplified `urlparse(...).netloc`). -/
def netloc (u : String) : String :=
  match afterScheme u.toList with
  | some rest => String.mk (rest.takeWhile (fun c => !(c = '/' || c = '?' || c = '#')))
  | none => ""

/-- `build_directory_url(date, use_zero_padding)`. -/
def build_directory_url (d : Date) (useZeroPadding : Bool) : String :=
  if useZeroPadding then
    "http://mrxwlb.com/" ++ natDec d.year ++ "/" ++ String.mk (chars2 d.month) ++
      "/" ++ String.mk (chars2 d.day) ++ "/"
  else
    "http://mrxwlb.com/" ++ natDec d.year ++ "/" ++ natDec d.month ++ "/" ++
      natDec d.day ++ "/"

/-- `build_govopendata_url(date)`. -/
def build_govopendata_url (d : Date) : String :=
  "https://cn.govopendata.com/xinwenlianbo/" ++ fmtCompact d ++ "/"

/-- `build_news_url(date, use_zero_padding)`: the legacy article URL; the
Chinese date inside the path is always zero-padded, only the bare path
segments change with the padding flag. -/
def build_news_url (d : Date) (useZeroPadding : Bool) : String :=
  let dateStrCnEncoded := pyQuote (String.mk (cnDateChars d))
  if useZeroPadding then
    "http://mrxwlb.com/" ++ natDec d.year ++ "/" ++ String.mk (chars2 d.month) ++
      "/" ++ String.mk (chars2 d.day) ++ "/" ++ dateStrCnEncoded ++ "新闻联播文字版/"
  else
    "http://mrxwlb.com/" ++ natDec d.year ++ "/" ++ natDec d.month ++ "/" ++
      natDec d.day ++ "/" ++ dateStrCnEncoded ++ "新闻联播文字版/"

/-- The default article title `f"{date.strftime('%Y年%m月%d日')}新闻联播文字版"`
built whenever the page exposes no usable `<h1>`/`<title>`. -/
def defaultTitle (d : Date) : String :=
  String.mk (cnDateChars d ++ "新闻联播文字版".toList)

/-- Greedy `\d{1,2}` immediately followed by a literal delimiter; returns
the value and the characters after the delimiter.  (Digits and the
delimiters used — `月`, `日`, `/` — are disjoint, so regex backtracking
reduces to this deterministic scan.) -/
def takeNum12 (delim : Char) : List Char → Option (Nat × List Char)
  | a :: b :: rest =>
    if a.isDigit then
      if b.isDigit then
        match rest with
        | c :: rest2 => if c = delim then some (10 * digitVal a + digitVal b, rest2) else none
        | [] => none
      else if b = delim then some (digitVal a, rest) else none
    else none
  | _ => none

/-- `(\d{4})年(\d{1,2})月(\d{1,2})日` tried at the current position. -/
def cnDateAt (cs : List Char) : Option (Nat × Nat × Nat) :=
  match cs with
  | a :: b :: c :: d :: s :: rest =>
    if a.isDigit && b.isDigit && c.isDigit && d.isDigit && s = '年' then
      match takeNum12 '月' rest with
      | some (m, rest2) =>
        match takeNum12 '日' rest2 with
        | some (dy, _) =>
          some (1000 * digitVal a + 100 * digitVal b + 10 * digitVal c + digitVal d, m, dy)
        | none => none
      | none => none
    else none
  | _ => none

/-- `re.search(r'(\d{4})年(\d{1,2})月(\d{1,2})日', ·)`: leftmost match. -/
def searchCnDate : List Char → Option (Nat × Nat × Nat)
  | [] => none
  | c :: rest =>
    match cnDateAt (c :: rest) with
    | some r => some r
    | none => searchCnDate rest

/-- `extract_date_from_title(title)`: regex search, then `datetime(y, m, d)`
with `ValueError` giving `None`. -/
def extract_date_from_title (title : String) : Option Date :=
  match searchCnDate title.toList with
  | some (y, m, d) => mkValidDate y m d
  | none => none

/-- `/(\d{4})/(\d{1,2})/(\d{1,2})/` tried at the current position. -/
def urlDateAt (cs : List Char) : Option (Nat × Nat × Nat) :=
  match cs with
  | s0 :: a :: b :: c :: d :: rest =>
    if s0 = '/' && a.isDigit && b.isDigit && c.isDigit && d.isDigit then
      match rest with
      | s1 :: rest1 =>
        if s1 = '/' then
          match takeNum12 '/' rest1 with
          | some (m, rest2) =>
            match takeNum12 '/' rest2 with
            | some (dd, _) =>
              some (1000 * digitVal a + 100 * digitVal b + 10 * digitVal c + digitVal d, m, dd)
            | none => none
          | none => none
        else none
      | [] => none
    else none
  | _ => none

/-- `re.search(r'/(\d{4})/(\d{1,2})/(\d{1,2})/', ·)`. -/
def urlDateSearch : List Char → Option (Nat × Nat × Nat)
  | [] => none
  | c :: rest =>
    match urlDateAt (c :: rest) with
    | some r => some r
    | none => urlDateSearch rest

/-! ## The fetch/retrieval state machine

HTML fetching and BeautifulSoup extraction are the external boundary: the
oracle returns, per request, the post-extraction outcome (status class,
extracted title — `""` when the page exposes no `<h1>`/`<title>` — and
extracted text — `""` when no content block was located).  Everything
downstream of those boundary results is translated from the source. -/

/-- Outcome of the govopendata request: 200 with extraction results, 403
(anti-bot), another status, or a requests-level network error. -/
inductive GovResp
  | ok200 (title : String) (content : String)
  | forbidden
  | otherStatus
  | netError

/-- Outcome of one legacy (mrxwlb) article request. -/
inductive LegacyResp
  | ok200 (title : String) (text : String)
  | notFound
  | httpError
  | netError

/-- Outcome of a directory-listing request: 200 with the links that
`extract_news_links_from_html` would produce, a non-200 status, or a
network/parse error (all non-200/err shapes behave identically). -/
inductive DirResp
  | ok200 (links : List String)
  | status (code : Nat)
  | netError

/-- The environment: local clock, the `datetime.now()` timestamp string
used in rewritten files, and the network boundary. -/
structure Oracle where
  nowDate : Date
  nowHour : Nat
  ts : String
  gov : GovResp
  selenium : Option (String × String)
  legacy : Bool → Nat → LegacyResp
  dirList : Bool → DirResp
  article : String → Option (String × String × Date)
  saveOk : Bool

/-- The govopendata phase of `fetch_news_by_date`: on 200 use the
extraction; on 403 try the Selenium rendering fallback; otherwise fall
through to the legacy source. -/
def govPhase (o : Oracle) (st : CrawlState) (d : Date) :
    Option (String × String × String) × CrawlState :=
  let st := pushNet st NetEvent.gov
  match o.gov with
  | GovResp.ok200 rawTitle content =>
    let title := if rawTitle = "" then defaultTitle d else rawTitle
    if content ≠ "" then
      (some (title, formatNewsTotal content, build_govopendata_url d), st)
    else (none, st)
  | GovResp.forbidden =>
    let st := pushNet st NetEvent.selenium
    match o.selenium with
    | some (rawTitle, content) =>
      let title := if rawTitle = "" then defaultTitle d else rawTitle
      if content ≠ "" then
        (some (title, formatNewsTotal content, build_govopendata_url d), st)
      else (none, st)
    | none => (none, st)
  | GovResp.otherStatus => (none, st)
  | GovResp.netError => (none, st)

/-- Verdict of the legacy retry loop for one padding variant. -/
inductive LegacyStep
  | success (title content url : String)
  | nextFormat
  | giveUp
  | giveUpRecord

/-- The `for attempt in range(retry_count)` loop of `fetch_news_by_date`
for one padding variant: 404 aborts the variant (and, on the non-padded
variant, demands ledger recording); HTTP errors and network errors retry
up to the budget; a 200 whose extracted text is absent or shorter than 50
characters after stripping falls through like an error.  The first `Nat`
argument after `retryCount` is recursion fuel, `retryCount` at the initial
call (each attempt of the `range(retry_count)` loop consumes one). -/
def legacyLoop (o : Oracle) (d : Date) (pad : Bool) (retryCount : Nat) :
    Nat → Nat → CrawlState → LegacyStep × CrawlState
  | 0, _, st => (if pad then LegacyStep.nextFormat else LegacyStep.giveUp, st)
  | fuel + 1, attempt, st =>
    let st := pushNet st (NetEvent.legacy pad attempt)
    match o.legacy pad attempt with
    | LegacyResp.notFound =>
      if pad then (LegacyStep.nextFormat, st) else (LegacyStep.giveUpRecord, st)
    | LegacyResp.httpError =>
      if attempt < retryCount - 1 then legacyLoop o d pad retryCount fuel (attempt + 1) st
      else if pad then (LegacyStep.nextFormat, st) else (LegacyStep.giveUp, st)
    | LegacyResp.netError =>
      if attempt < retryCount - 1 then legacyLoop o d pad retryCount fuel (attempt + 1) st
      else if pad then (LegacyStep.nextFormat, st) else (LegacyStep.giveUp, st)
    | LegacyResp.ok200 rawTitle text =>
      let title := if rawTitle = "" then defaultTitle d else rawTitle
      if text = "" || (stripChars text.toList).length < 50 then
        (if pad then (LegacyStep.nextFormat, st) else (LegacyStep.giveUp, st))
      else (LegacyStep.success title (formatNewsTotal text) (build_news_url d pad), st)

/-- `fetch_news_by_date(date, retry_count)`: govopendata first, then the
legacy article URL with zero padding, then without; only the double-404 of
the legacy URL records the date in the Missing-Date Ledger. -/
def fetch_news_by_date (o : Oracle) (st : CrawlState) (d : Date) (retryCount : Nat) :
    Option (String × String × String) × CrawlState :=
  match govPhase o st d with
  | (some r, st) => (some r, st)
  | (none, st) =>
    match legacyLoop o d true retryCount retryCount 0 st with
    | (LegacyStep.success t c u, st) => (some (t, c, u), st)
    | (LegacyStep.giveUp, st) => (none, st)
    | (LegacyStep.giveUpRecord, st) => (none, record_missing_date o.ts st d)
    | (LegacyStep.nextFormat, st) =>
      match legacyLoop o d false retryCount retryCount 0 st with
      | (LegacyStep.success t c u, st) => (some (t, c, u), st)
      | (LegacyStep.giveUp, st) => (none, st)
      | (LegacyStep.giveUpRecord, st) => (none, record_missing_date o.ts st d)
      | (LegacyStep.nextFormat, st) => (none, st)

/-- The non-padded half of `fetch_news_links_from_directory`. -/
def dirSecond (o : Oracle) (st : CrawlState) : List String × CrawlState :=
  let st := pushNet st (NetEvent.dir false)
  match o.dirList false with
  | DirResp.ok200 links => if links ≠ [] then (links, st) else ([], st)
  | DirResp.status _ => ([], st)
  | DirResp.netError => ([], st)

/-- `fetch_news_links_from_directory(date)`: try the zero-padded directory
URL, then the non-padded one; every failure shape (404, 403, other
non-200, network or parse error, or an empty link list) falls through to
the next variant or returns the empty list. -/
def fetch_news_links_from_directory (o : Oracle) (st : CrawlState) :
    List String × CrawlState :=
  let st := pushNet st (NetEvent.dir true)
  match o.dirList true with
  | DirResp.ok200 links => if links ≠ [] then (links, st) else dirSecond o st
  | DirResp.status _ => dirSecond o st
  | DirResp.netError => dirSecond o st

/-- URL normalisation for deduplication: `link.rstrip('/').split('?')[0]`. -/
def normalizeUrl (s : String) : String :=
  String.mk (((s.toList.reverse.dropWhile (fun c => c = '/')).reverse).takeWhile
    (fun c => !(c = '?')))

/-- Order-preserving deduplication of the link list by normalised URL. -/
def dedupLinks (seen : List String) : List String → List String
  | [] => []
  | l :: ls =>
    let n := normalizeUrl l
    if n ∈ seen then dedupLinks seen ls
    else l :: dedupLinks (n :: seen) ls

/-- The inner loop of `crawl_news_from_directory`: pre-check by the URL
date (and the directory date when they differ), fetch by URL with no date
bound (so no ledger recording can happen), skip already saved dates, and
deduplicate by the (title, `%Y-%m-%d`) pair.  Results are
`(title, content, actual_date, source_link)` tuples. -/
def cnfdLoop (o : Oracle) (st : CrawlState) (dirDate : Date) (skipExisting : Bool)
    (seenKeys : List (String × String)) :
    List String → List (String × String × Date × String) × CrawlState
  | [] => ([], st)
  | link :: restLinks =>
    let preSkip : Bool :=
      skipExisting &&
      (match urlDateSearch link.toList with
       | some (y, m, dd) =>
         (match mkValidDate y m dd with
          | some pd =>
            let possible :=
              if (y, m, dd) ≠ (dirDate.year, dirDate.month, dirDate.day)
              then [pd, dirDate] else [pd]
            possible.all (fun x => check_news_file_exists st x)
          | none => false)
       | none => false)
    if preSkip then cnfdLoop o st dirDate skipExisting seenKeys restLinks
    else
      let st := pushNet st (NetEvent.article link)
      match o.article link with
      | some (t, c, ad) =>
        if skipExisting && check_news_file_exists st ad then
          cnfdLoop o st dirDate skipExisting seenKeys restLinks
        else
          let key := (t, fmtDashDate ad)
          if key ∈ seenKeys then cnfdLoop o st dirDate skipExisting seenKeys restLinks
          else
            match cnfdLoop o st dirDate skipExisting (key :: seenKeys) restLinks with
            | (rest, st2) => ((t, c, ad, link) :: rest, st2)
      | none => cnfdLoop o st dirDate skipExisting seenKeys restLinks

/-- `crawl_news_from_directory(date, skip_existing)`. -/
def crawl_news_from_directory (o : Oracle) (st : CrawlState) (d : Date)
    (skipExisting : Bool) : List (String × String × Date × String) × CrawlState :=
  match fetch_news_links_from_directory o st with
  | (links, st) =>
    if links = [] then ([], st)
    else cnfdLoop o st d skipExisting [] (dedupLinks [] links)

/-- The Markdown document written by `save_news_to_file` (section 6
template); `crawlTime` stands for `datetime.now().strftime(...)`. -/
def save_news_markdown (content : String) (d : Date) (recordedSource : String)
    (sourceDomain : String) (crawlTime : String) : String :=
  "# " ++ fmtCnDate d ++ " 新闻联播\n\n**日期**: " ++ fmtCnDate d ++
  "  \n**爬取时间**: " ++ crawlTime ++ "\n\n---\n\n" ++ content ++
  "\n\n---\n\n*来源: " ++ sourceDomain ++ "*  \n*URL: " ++ recordedSource ++ "*\n"

/-- `save_news_to_file(title, content, date, source_url)`: build the
template (the title parameter is unused by the template), write
`YYYYMMDD.md` (overwriting), and return the path — or `None` if the write
raised.  A falsy (`None` or empty) source URL falls back to the
zero-padded legacy article URL. -/
def save_news_to_file (o : Oracle) (st : CrawlState) (title content : String)
    (d : Date) (sourceUrl : Option String) : Option String × CrawlState :=
  let _ := title
  if o.saveOk then
    let recorded :=
      match sourceUrl with
      | some s => if s = "" then build_news_url d true else s
      | none => build_news_url d true
    let domain := netloc recorded
    let fname := fmtCompact d ++ ".md"
    (some fname, writeFile st fname (save_news_markdown content d recorded domain o.ts))
  else (none, st)

/-- Per-run counters, reset for every date processed. -/
structure Stats where
  success : Nat
  failed : Nat
  skipped : Nat
deriving DecidableEq, Repr

/-- The save loop of `crawl_and_save_from_directory` over the fetched
news list — it only writes files and counts; it never touches the
Missing-Date Ledger. -/
def saveLoopV1 (o : Oracle) (st : CrawlState) (acc : Stats) :
    List (String × String × Date × String) → Stats × CrawlState
  | [] => (acc, st)
  | (t, c, ad, link) :: rest =>
    match save_news_to_file o st t c ad (some link) with
    | (some _, st) => saveLoopV1 o st { acc with success := acc.success + 1 } rest
    | (none, st) => saveLoopV1 o st { acc with failed := acc.failed + 1 } rest

/-- The sampling pass run when the directory crawl returned nothing:
count how many of the first 10 links point at an already saved date. -/
def sampleSkipped (st : CrawlState) (links : List String) : Nat :=
  (links.take 10).countP (fun l =>
    match urlDateSearch l.toList with
    | some (y, m, dd) =>
      (match mkValidDate y m dd with
       | some cd => check_news_file_exists st cd
       | none => false)
    | none => false)

/-- `crawl_and_save_from_directory(date)`: guards (future date, broadcast
hour, existing file), the direct by-date fetch with ledger removal on
success, then the directory fallback with ledger recording when the
listing yields no links. -/
def crawl_and_save_from_directory (o : Oracle) (st : CrawlState) (d : Date) :
    Stats × CrawlState :=
  if Date.lt o.nowDate d then (Stats.mk 0 1 0, st)
  else if d = o.nowDate && decide (o.nowHour < 19) then (Stats.mk 0 0 1, st)
  else if check_news_file_exists st d then (Stats.mk 0 0 1, st)
  else
    match fetch_news_by_date o st d 3 with
    | (some (title, content, srcUrl), st) =>
      (match save_news_to_file o st title content d (some srcUrl) with
       | (some _, st) => (Stats.mk 1 0 0, remove_date_from_not_exist o.ts st d)
       | (none, st) => (Stats.mk 0 1 0, st))
    | (none, st) =>
      match fetch_news_links_from_directory o st with
      | (links, st) =>
        if links = [] then (Stats.mk 0 1 0, record_missing_date o.ts st d)
        else
          match crawl_news_from_directory o st d true with
          | (newsList, st) =>
            if newsList = [] then
              if sampleSkipped st links > 0 then (Stats.mk 0 0 links.length, st)
              else (Stats.mk 0 1 0, st)
            else saveLoopV1 o st (Stats.mk 0 0 0) newsList

/-! ## The v2 crawler (NewsItem-based) -/

/-- The `NewsItem` dataclass.  `crawled_at` is carried as its already
formatted `%Y-%m-%d %H:%M:%S` string (the model never computes with it);
`none` renders as `N/A`. -/
structure NewsItem where
  title : String
  content : String
  date : Date
  url : String
  source_url : Option String
  crawled_at : Option String
deriving DecidableEq, Repr

/-- `NewsItem.to_markdown()`. -/
def NewsItem.to_markdown (item : NewsItem) : String :=
  "# " ++ item.title ++ "\n\n**日期**: " ++ fmtCnDate item.date ++ " (" ++
  fmtDashDate item.date ++ ")\n**来源**: [" ++ item.url ++ "](" ++ item.url ++
  ")\n**爬取时间**: " ++ (item.crawled_at.getD "N/A") ++ "\n\n---\n\n" ++
  item.content ++ "\n\n---\n\n*来源链接: " ++ item.url ++ "*\n"

/-- `save_news_file(content, date)` from file_manager: write the given
text as `YYYYMMDD.md` and return the path, `None` on a write error. -/
def save_news_file (o : Oracle) (st : CrawlState) (content : String) (d : Date) :
    Option String × CrawlState :=
  if o.saveOk then
    let fname := fmtCompact d ++ ".md"
    (some fname, writeFile st fname content)
  else (none, st)

/-- The inner loop of `crawl_news_items_from_directory` (v2): its
pre-check uses only the URL date, and surviving articles become
`NewsItem`s carrying the directory page as `source_url`. -/
def cnifdLoop (o : Oracle) (st : CrawlState) (srcUrl : String) (skipExisting : Bool)
    (seenKeys : List (String × String)) : List String → List NewsItem × CrawlState
  | [] => ([], st)
  | link :: restLinks =>
    let preSkip : Bool :=
      skipExisting &&
      (match urlDateSearch link.toList with
       | some (y, m, dd) =>
         (match mkValidDate y m dd with
          | some pd => check_news_file_exists st pd
          | none => false)
       | none => false)
    if preSkip then cnifdLoop o st srcUrl skipExisting seenKeys restLinks
    else
      let st := pushNet st (NetEvent.article link)
      match o.article link with
      | some (t, c, ad) =>
        if skipExisting && check_news_file_exists st ad then
          cnifdLoop o st srcUrl skipExisting seenKeys restLinks
        else
          let key := (t, fmtDashDate ad)
          if key ∈ seenKeys then cnifdLoop o st srcUrl skipExisting seenKeys restLinks
          else
            match cnifdLoop o st srcUrl skipExisting (key :: seenKeys) restLinks with
            | (rest, st2) =>
              (NewsItem.mk t c ad link (some srcUrl) (some o.ts) :: rest, st2)
      | none => cnifdLoop o st srcUrl skipExisting seenKeys restLinks

/-- `crawl_news_items_from_directory(date, skip_existing)`. -/
def crawl_news_items_from_directory (o : Oracle) (st : CrawlState) (d : Date)
    (skipExisting : Bool) : List NewsItem × CrawlState :=
  match fetch_news_links_from_directory o st with
  | (links, st) =>
    let srcUrl := build_directory_url d true
    if links = [] then ([], st)
    else cnifdLoop o st srcUrl skipExisting [] (dedupLinks [] links)

/-- The save loop of `crawl_and_save_news_items`: every successful save
removes the item's date from the ledger, every failed save records it. -/
def saveLoopV2 (o : Oracle) (st : CrawlState) (acc : Stats) :
    List NewsItem → Stats × CrawlState
  | [] => (acc, st)
  | item :: rest =>
    match save_news_file o st item.to_markdown item.date with
    | (some _, st) =>
      saveLoopV2 o (remove_date_from_not_exist o.ts st item.date)
        { acc with success := acc.success + 1 } rest
    | (none, st) =>
      saveLoopV2 o (record_missing_date o.ts st item.date)
        { acc with failed := acc.failed + 1 } rest

/-- `crawl_and_save_news_items(date)` (v2): same guards, direct by-date
fetch saving a `NewsItem`, then the directory fallback; returns the stats
together with the item list. -/
def crawl_and_save_news_items (o : Oracle) (st : CrawlState) (d : Date) :
    Stats × List NewsItem × CrawlState :=
  if Date.lt o.nowDate d then (Stats.mk 0 1 0, [], st)
  else if d = o.nowDate && decide (o.nowHour < 19) then (Stats.mk 0 0 1, [], st)
  else if check_news_file_exists st d then (Stats.mk 0 0 1, [], st)
  else
    match fetch_news_by_date o st d 3 with
    | (some (t, c, srcUrl), st) =>
      let item := NewsItem.mk t c d srcUrl (some srcUrl) (some o.ts)
      (match save_news_file o st item.to_markdown d with
       | (some _, st) => (Stats.mk 1 0 0, [item], remove_date_from_not_exist o.ts st d)
       | (none, st) => (Stats.mk 0 1 0, [], st))
    | (none, st) =>
      match fetch_news_links_from_directory o st with
      | (links, st) =>
        if links = [] then (Stats.mk 0 1 0, [], record_missing_date o.ts st d)
        else
          match crawl_news_items_from_directory o st d true with
          | (items, st) =>
            if items = [] then
              if sampleSkipped st links > 0 then (Stats.mk 0 0 links.length, [], st)
              else (Stats.mk 0 1 0, [], st)
            else
              match saveLoopV2 o st (Stats.mk 0 0 0) items with
              | (stats, st) => (stats, items, st)

/-! ## Specification-side definitions (for the refinement claims) -/

/-- The persisted Markdown template of spec section 6, written from the
spec's template block: title line, the two metadata lines, the content
between two horizontal rules, and the source/URL footer. -/
def specNewsTemplate (cnDate ts content host srcUrl : String) : String :=
  "# " ++ cnDate ++ " 新闻联播\n\n**日期**: " ++ cnDate ++ "  \n**爬取时间**: " ++
  ts ++ "\n\n---\n\n" ++ content ++ "\n\n---\n\n*来源: " ++ host ++
  "*  \n*URL: " ++ srcUrl ++ "*\n"

/-- A text follows the section-6 template for date `d` when it is an
instance of the template with `d`'s Chinese date, for some timestamp,
content, host, and source URL. -/
def FollowsTemplateFor (d : Date) (text : String) : Prop :=
  ∃ ts content host srcUrl,
    text = specNewsTemplate (fmtCnDate d) ts content host srcUrl

/-- One Missing-Date Ledger call: a `record_missing_date` /
`update_not_exist_file` bulk add, or a `remove_date_from_not_exist`,
each with the `datetime.now()` string of that call. -/
inductive LedgerOp
  | add (ts : String) (dates : List Date)
  | remove (ts : String) (d : Date)

/-- Run a sequence of ledger calls against the file state. -/
def applyLedgerOps (st : CrawlState) : List LedgerOp → CrawlState
  | [] => st
  | LedgerOp.add ts ds :: rest => applyLedgerOps (update_not_exist_file ts st ds) rest
  | LedgerOp.remove ts d :: rest =>
    applyLedgerOps (remove_date_from_not_exist ts st d) rest

/-- The set of dates implied by a call sequence (union for adds, deletion
for removes), kept as its sorted deduplicated enumeration. -/
def specLedger (acc : List Date) : List LedgerOp → List Date
  | [] => acc
  | LedgerOp.add _ ds :: rest => specLedger (sortDedup (acc ++ ds)) rest
  | LedgerOp.remove _ d :: rest =>
    specLedger (acc.filter (fun x => !(x = d))) rest

/-- Well-formedness of a call sequence: clean timestamps and
`datetime`-valid dates (which every caller passes by construction). -/
def LedgerOpsWF (ops : List LedgerOp) : Prop :=
  ∀ op ∈ ops,
    match op with
    | LedgerOp.add ts ds => TsClean ts = true ∧ ∀ d ∈ ds, d.validB = true
    | LedgerOp.remove ts d => TsClean ts = true ∧ d.validB = true

/-- The ledger file faithfully stores a date list: either it does not
exist and the list is empty, or it is the rendered document of exactly
that list under some clean timestamp. -/
def LedgerAbs (led : Option String) (D : List Date) : Prop :=
  (led = none ∧ D = []) ∨
  ∃ ts, TsClean ts = true ∧ led = some (renderLedger ts D)

/-- The gov phase yields nothing: a non-200/403 status, a network error,
a 403 whose Selenium fallback fails, or a 200/rendered page with no
extractable content. -/
def GovFallsThrough (o : Oracle) : Prop :=
  match o.gov with
  | GovResp.ok200 _ c => c = ""
  | GovResp.forbidden =>
    (match o.selenium with
     | some (_, c) => c = ""
     | none => True)
  | GovResp.otherStatus => True
  | GovResp.netError => True

/-! ## Concrete scenario used by the counterexamples: the govopendata
source fails, the legacy article URL is 404 under both paddings (so
`fetch_news_by_date` records the date as missing), and the directory
listing then yields one working article for the same date. -/

/-- The target date of the scenario. -/
def cexDate : Date := Date.mk 2025 1 2

/-- The single directory link of the scenario. -/
def cexLink : String := "http://mrxwlb.com/2025/01/02/a/"

/-- The scenario oracle. -/
def cexOracle : Oracle :=
  Oracle.mk (Date.mk 2025 6 1) 20 "2025-06-01 10:00:00"
    GovResp.otherStatus none (fun _ _ => LegacyResp.notFound)
    (fun _ => DirResp.ok200 [cexLink])
    (fun l => if l = cexLink then some ("标题", "正文", cexDate) else none)
    true

/-- The empty initial state: no files, no ledger, no requests yet. -/
def emptyState : CrawlState := CrawlState.mk [] none []

/-- A state in which the scenario date was previously recorded missing. -/
def c4State : CrawlState := record_missing_date "2025-06-01 10:00:00" emptyState cexDate

/-- An oracle whose govopendata source succeeds directly (so the direct
by-date path of the crawl is taken). -/
def c4Oracle : Oracle :=
  Oracle.mk (Date.mk 2025 6 1) 20 "2025-06-01 10:00:00"
    (GovResp.ok200 "标题" "正文") none (fun _ _ => LegacyResp.notFound)
    (fun _ => DirResp.status 404)
    (fun _ => none)
    true

/-- The Markdown text that the v2 crawl persists for the scenario date:
the `NewsItem.to_markdown` rendering of the directly fetched article. -/
def c2SavedText : String :=
  (NewsItem.mk "标题" (formatNewsTotal "正文") cexDate (build_govopendata_url cexDate)
    (some (build_govopendata_url cexDate)) (some "2025-06-01 10:00:00")).to_markdown

/-- The deduplication key a directory link contributes in the v2 loop, if
it survives the loop's pre-checks: `none` when the URL-date pre-check
skips the link, the article fetch fails, or the already-saved check skips
it; otherwise the (title, `%Y-%m-%d`) pair of the fetched article.  The
checks only read `st.files`, which the loop never changes, so the key is
computed against the loop's entry state. -/
def linkKey (o : Oracle) (st : CrawlState) (skipExisting : Bool) (link : String) :
    Option (String × String) :=
  let preSkip : Bool :=
    skipExisting &&
    (match urlDateSearch link.toList with
     | some (y, m, dd) =>
       (match mkValidDate y m dd with
        | some pd => check_news_file_exists st pd
        | none => false)
     | none => false)
  if preSkip then none
  else
    match o.article link with
    | some (t, _, ad) =>
      if skipExisting && check_news_file_exists st ad then none
      else some (t, fmtDashDate ad)
    | none => none

/-- The spec's dedup scenario: the directory page yields three links, the
first two resolving to the same title and the same calendar date. -/
def c9Oracle : Oracle :=
  Oracle.mk (Date.mk 2025 6 1) 20 "2025-06-01 10:00:00"
    GovResp.otherStatus none (fun _ _ => LegacyResp.notFound)
    (fun _ => DirResp.ok200 ["http://mrxwlb.com/2025/01/02/a/",
      "http://mrxwlb.com/2025/01/02/b/", "http://mrxwlb.com/2025/01/02/c/"])
    (fun l => if l = "http://mrxwlb.com/2025/01/02/a/" then some ("标题", "甲", cexDate)
      else if l = "http://mrxwlb.com/2025/01/02/b/" then some ("标题", "乙", cexDate)
      else if l = "http://mrxwlb.com/2025/01/02/c/" then some ("标题二", "丙", cexDate)
      else none)
    true

/-! # Theorems

## Digit and character lemmas -/

theorem digitChar_isDigit (n : Nat) : (digitChar n).isDigit = true := by
  unfold digitChar
  have h : n % 10 < 10 := Nat.mod_lt _ (by omega)
  revert h
  generalize n % 10 = k
  intro h
  interval_cases k <;> decide

theorem digitVal_digitChar (n : Nat) : digitVal (digitChar n) = n % 10 := by
  unfold digitChar digitVal
  have h : n % 10 < 10 := Nat.mod_lt _ (by omega)
  revert h
  generalize n % 10 = k
  intro h
  interval_cases k <;> decide

theorem ne_of_isDigit {c x : Char} (h : c.isDigit = true) (hx : x.isDigit = false) :
    c ≠ x := by
  intro he
  rw [he, hx] at h
  exact Bool.false_ne_true h

theorem digitChar_ne_dash (n : Nat) : digitChar n ≠ '-' :=
  ne_of_isDigit (digitChar_isDigit n) (by decide)

/-! ## Date ordering and sorted deduplication -/

theorem Date.lt_iff {a b : Date} : Date.lt a b = true ↔
    a.year < b.year ∨ (a.year = b.year ∧ (a.month < b.month ∨
      (a.month = b.month ∧ a.day < b.day))) := by
  simp [Date.lt, Bool.or_eq_true, Bool.and_eq_true, decide_eq_true_eq, beq_iff_eq]

theorem Date.lt_irrefl (a : Date) : Date.lt a a = false := by
  rw [Bool.eq_false_iff]
  intro h
  rw [Date.lt_iff] at h
  omega

theorem Date.lt_asymm {a b : Date} (h : Date.lt a b = true) : Date.lt b a = false := by
  rw [Bool.eq_false_iff]
  intro h2
  rw [Date.lt_iff] at h h2
  omega

theorem Date.lt_trans {a b c : Date} (h1 : Date.lt a b = true)
    (h2 : Date.lt b c = true) : Date.lt a c = true := by
  rw [Date.lt_iff] at h1 h2 ⊢
  omega

theorem Date.lt_total {a b : Date} (h : a ≠ b) :
    Date.lt a b = true ∨ Date.lt b a = true := by
  rcases a with ⟨ay, am, ad⟩
  rcases b with ⟨by2, bm, bd⟩
  simp only [ne_eq, Date.mk.injEq, not_and] at h
  rw [Date.lt_iff, Date.lt_iff]
  simp only at h ⊢
  by_cases hy : ay = by2
  · by_cases hm : am = bm
    · have hd : ad ≠ bd := by
        intro hdd
        exact h hy hm hdd
      omega
    · omega
  · omega

theorem mem_insertDate {x y : Date} {l : List Date} :
    x ∈ insertDate y l ↔ x = y ∨ x ∈ l := by
  induction l with
  | nil => simp [insertDate]
  | cons z zs ih =>
    unfold insertDate
    by_cases h1 : Date.lt y z = true
    · rw [if_pos h1]
      simp [List.mem_cons]
    · rw [if_neg h1]
      by_cases h2 : y = z
      · subst h2
        rw [if_pos rfl]
        simp [List.mem_cons]
      · rw [if_neg h2]
        simp only [List.mem_cons, ih]
        tauto

theorem pairwise_insertDate {x : Date} {l : List Date}
    (h : l.Pairwise (fun a b => Date.lt a b = true)) :
    (insertDate x l).Pairwise (fun a b => Date.lt a b = true) := by
  induction l with
  | nil => simp [insertDate]
  | cons z zs ih =>
    rw [List.pairwise_cons] at h
    obtain ⟨hz, hzs⟩ := h
    unfold insertDate
    by_cases h1 : Date.lt x z = true
    · rw [if_pos h1]
      rw [List.pairwise_cons]
      constructor
      · intro a ha
        rcases List.mem_cons.mp ha with rfl | ha2
        · exact h1
        · exact Date.lt_trans h1 (hz a ha2)
      · rw [List.pairwise_cons]
        exact ⟨hz, hzs⟩
    · rw [if_neg h1]
      by_cases h2 : x = z
      · rw [if_pos h2]
        rw [List.pairwise_cons]
        exact ⟨hz, hzs⟩
      · rw [if_neg h2]
        rw [List.pairwise_cons]
        constructor
        · intro a ha
          rcases mem_insertDate.mp ha with rfl | ha2
          · rcases Date.lt_total h2 with hlt | hlt
            · exact absurd hlt h1
            · exact hlt
          · exact hz a ha2
        · exact ih hzs

theorem mem_sortDedup {x : Date} {l : List Date} : x ∈ sortDedup l ↔ x ∈ l := by
  induction l with
  | nil => simp [sortDedup]
  | cons z zs ih =>
    simp only [sortDedup, List.foldr_cons, List.mem_cons]
    rw [show List.foldr insertDate [] zs = sortDedup zs from rfl] at *
    rw [mem_insertDate, ih]

theorem pairwise_sortDedup (l : List Date) :
    (sortDedup l).Pairwise (fun a b => Date.lt a b = true) := by
  induction l with
  | nil => simp [sortDedup]
  | cons z zs ih =>
    simp only [sortDedup, List.foldr_cons]
    exact pairwise_insertDate ih

theorem sorted_unique {l1 l2 : List Date}
    (h1 : l1.Pairwise (fun a b => Date.lt a b = true))
    (h2 : l2.Pairwise (fun a b => Date.lt a b = true))
    (hm : ∀ x, x ∈ l1 ↔ x ∈ l2) : l1 = l2 := by
  induction l1 generalizing l2 with
  | nil =>
    cases l2 with
    | nil => rfl
    | cons b t2 =>
      exact absurd ((hm b).mpr (List.mem_cons_self _ _)) (List.not_mem_nil b)
  | cons a t1 ih =>
    cases l2 with
    | nil =>
      exact absurd ((hm a).mp (List.mem_cons_self _ _)) (List.not_mem_nil a)
    | cons b t2 =>
      rw [List.pairwise_cons] at h1 h2
      obtain ⟨ha, ht1⟩ := h1
      obtain ⟨hb, ht2⟩ := h2
      have hab : a = b := by
        by_contra hne
        have ha2 : a ∈ t2 := by
          rcases List.mem_cons.mp ((hm a).mp (List.mem_cons_self _ _)) with h | h
          · exact absurd h hne
          · exact h
        have hb1 : b ∈ t1 := by
          rcases List.mem_cons.mp ((hm b).mpr (List.mem_cons_self _ _)) with h | h
          · exact absurd h.symm hne
          · exact h
        have := Date.lt_asymm (hb a ha2)
        rw [ha b hb1] at this
        exact absurd this (by decide)
      subst hab
      have htm : ∀ x, x ∈ t1 ↔ x ∈ t2 := by
        intro x
        constructor
        · intro hx
          have hxa : x ≠ a := by
            intro he
            subst he
            have := ha x hx
            rw [Date.lt_irrefl] at this
            exact absurd this (by decide)
          rcases List.mem_cons.mp ((hm x).mp (List.mem_cons_of_mem _ hx)) with h | h
          · exact absurd h hxa
          · exact h
        · intro hx
          have hxa : x ≠ a := by
            intro he
            subst he
            have := hb x hx
            rw [Date.lt_irrefl] at this
            exact absurd this (by decide)
          rcases List.mem_cons.mp ((hm x).mpr (List.mem_cons_of_mem _ hx)) with h | h
          · exact absurd h hxa
          · exact h
      rw [ih ht1 ht2 htm]

theorem sortDedup_eq_self {l : List Date}
    (h : l.Pairwise (fun a b => Date.lt a b = true)) : sortDedup l = l :=
  sorted_unique (pairwise_sortDedup l) h (fun _ => mem_sortDedup)

theorem sortDedup_congr {l1 l2 : List Date} (hm : ∀ x, x ∈ l1 ↔ x ∈ l2) :
    sortDedup l1 = sortDedup l2 :=
  sorted_unique (pairwise_sortDedup l1) (pairwise_sortDedup l2)
    (fun x => by rw [mem_sortDedup, mem_sortDedup]; exact hm x)

/-! ## Ledger scanner lemmas: skipping clean segments -/

theorem band_true {a b : Bool} (h : (a && b) = true) : a = true ∧ b = true := by
  simp only [Bool.and_eq_true] at h
  exact h

theorem digitChar_ne_space (n : Nat) : digitChar n ≠ ' ' :=
  ne_of_isDigit (digitChar_isDigit n) (by decide)

theorem cleanChars_tail {x : Char} {rest : List Char}
    (h : cleanChars (x :: rest) = true) : cleanChars rest = true := by
  cases rest with
  | nil => rfl
  | cons b t =>
    unfold cleanChars at h
    exact (band_true h).2

theorem cleanChars_pair {x y : Char} {rest : List Char}
    (h : cleanChars (x :: y :: rest) = true) : ¬(x = '-' ∧ y = ' ') := by
  unfold cleanChars at h
  have h1 := (band_true h).1
  intro hc
  rcases hc with ⟨hx, hy⟩
  subst hx
  subst hy
  simp at h1

theorem cleanAny_cons {c : Char} {rest : List Char} (hc : c ≠ '-')
    (h : cleanAny rest = true) : cleanAny (c :: rest) = true := by
  cases rest with
  | nil => simp [cleanAny, hc]
  | cons b t =>
    unfold cleanAny
    rw [Bool.and_eq_true]
    refine ⟨?_, h⟩
    simp [hc]

theorem cleanAny_cons_dash {b : Char} {rest : List Char} (hb : b ≠ ' ')
    (h : cleanAny (b :: rest) = true) : cleanAny ('-' :: b :: rest) = true := by
  unfold cleanAny
  rw [Bool.and_eq_true]
  refine ⟨?_, h⟩
  simp [hb]

theorem cleanAny_append {xs ys : List Char} (hx : cleanAny xs = true)
    (hy : cleanAny ys = true) : cleanAny (xs ++ ys) = true := by
  induction xs with
  | nil => simpa using hy
  | cons a t ih =>
    cases t with
    | nil =>
      have ha : a ≠ '-' := by
        simp only [cleanAny, Bool.not_eq_true', decide_eq_false_iff_not] at hx
        exact hx
      simpa using cleanAny_cons ha hy
    | cons b t2 =>
      have hp := (band_true hx).1
      have ht := (band_true hx).2
      have hr := ih ht
      have hdef : cleanAny (a :: b :: (t2 ++ ys)) =
          (!(decide (a = '-') && decide (b = ' ')) && cleanAny (b :: (t2 ++ ys))) := rfl
      show cleanAny (a :: b :: (t2 ++ ys)) = true
      rw [hdef, Bool.and_eq_true]
      exact ⟨hp, hr⟩

theorem cleanAny_of_forall {xs : List Char} (h : ∀ c ∈ xs, c ≠ '-') :
    cleanAny xs = true := by
  induction xs with
  | nil => rfl
  | cons a t ih =>
    have ha : a ≠ '-' := h a (List.mem_cons_self _ _)
    exact cleanAny_cons ha (ih (fun c hc => h c (List.mem_cons_of_mem _ hc)))

theorem cleanChars_append_single {xs t : List Char} (h : cleanAny xs = true)
    (ht : t.length ≤ 1) : cleanChars (xs ++ t) = true := by
  induction xs with
  | nil =>
    cases t with
    | nil => rfl
    | cons y t2 =>
      cases t2 with
      | nil => rfl
      | cons z t3 => simp at ht
  | cons a xs2 ih =>
    cases xs2 with
    | nil =>
      have ha : a ≠ '-' := by
        simp only [cleanAny, Bool.not_eq_true', decide_eq_false_iff_not] at h
        exact h
      cases t with
      | nil => rfl
      | cons y t2 =>
        cases t2 with
        | nil =>
          show cleanChars (a :: y :: []) = true
          unfold cleanChars
          rw [Bool.and_eq_true]
          exact ⟨by simp [ha], rfl⟩
        | cons z t3 => simp at ht
    | cons b xs3 =>
      have hp := (band_true h).1
      have htl := (band_true h).2
      have hdef : cleanChars (a :: b :: (xs3 ++ t)) =
          (!(decide (a = '-') && decide (b = ' ')) && cleanChars (b :: (xs3 ++ t))) := rfl
      show cleanChars (a :: b :: (xs3 ++ t)) = true
      rw [hdef, Bool.and_eq_true]
      exact ⟨hp, ih htl⟩

theorem ledgerMatchAt_none_pair {a b : Char} {rest : List Char}
    (h : ¬(a = '-' ∧ b = ' ')) : ledgerMatchAt (a :: b :: rest) = none := by
  have hfalse : (decide (a = '-') && decide (b = ' ')) = false := by
    rcases Decidable.em (a = '-') with hx | hx
    · rcases Decidable.em (b = ' ') with hy | hy
      · exact absurd ⟨hx, hy⟩ h
      · simp [hy]
    · simp [hx]
  unfold ledgerMatchAt
  simp [hfalse]

theorem findLD_cons_none {c : Char} {rest : List Char}
    (h : ledgerMatchAt (c :: rest) = none) :
    findLedgerDates (c :: rest) = findLedgerDates rest := by
  conv_lhs => unfold findLedgerDates
  rw [h]

theorem findLD_cons_some {c : Char} {rest ds : List Char}
    (h : ledgerMatchAt (c :: rest) = some ds) :
    findLedgerDates (c :: rest) = ds :: findLedgerDates rest := by
  conv_lhs => unfold findLedgerDates
  rw [h]

theorem findLD_append_clean : ∀ (xs ys : List Char),
    cleanChars (xs ++ ys.take 1) = true →
    findLedgerDates (xs ++ ys) = findLedgerDates ys := by
  intro xs
  induction xs with
  | nil => intro ys _; rfl
  | cons x xs ih =>
    intro ys h
    have hstep : findLedgerDates (x :: (xs ++ ys)) = findLedgerDates (xs ++ ys) := by
      apply findLD_cons_none
      cases hxs : xs with
      | nil =>
        cases hys : ys with
        | nil => rfl
        | cons y ys2 =>
          apply ledgerMatchAt_none_pair
          subst hxs hys
          exact cleanChars_pair h
      | cons x2 xs2 =>
        apply ledgerMatchAt_none_pair
        subst hxs
        exact cleanChars_pair h
    show findLedgerDates (x :: (xs ++ ys)) = findLedgerDates ys
    rw [hstep]
    apply ih
    exact cleanChars_tail h

/-! ## Scanning the rendered ledger -/

theorem natDecAux_digits : ∀ (fuel n : Nat) (acc : List Char),
    (∀ c ∈ acc, c.isDigit = true) → ∀ c ∈ natDecAux fuel n acc, c.isDigit = true := by
  intro fuel
  induction fuel with
  | zero =>
    intro n acc h c hc
    exact h c hc
  | succ f ih =>
    intro n acc h c hc
    unfold natDecAux at hc
    by_cases hn : n = 0
    · rw [if_pos hn] at hc
      exact h c hc
    · rw [if_neg hn] at hc
      refine ih (n / 10) (digitChar n :: acc) ?_ c hc
      intro x hx
      rcases List.mem_cons.mp hx with rfl | hx2
      · exact digitChar_isDigit n
      · exact h x hx2

theorem natDec_digits (n : Nat) : ∀ c ∈ (natDec n).toList, c.isDigit = true := by
  unfold natDec
  by_cases hn : n == 0
  · rw [if_pos hn]
    intro c hc
    rcases List.mem_cons.mp hc with rfl | h
    · decide
    · cases h
  · rw [if_neg hn]
    intro c hc
    exact natDecAux_digits n n [] (by intro x hx; cases hx) c hc

theorem natDec_no_dash (n : Nat) : ∀ c ∈ (natDec n).toList, c ≠ '-' :=
  fun c hc => ne_of_isDigit (natDec_digits n c hc) (by decide)

theorem take_one_length {α : Type} (l : List α) : (l.take 1).length ≤ 1 := by
  calc (l.take 1).length ≤ 1 := by
        rw [List.length_take]
        omega

theorem findLD_footer (n : Nat) : findLedgerDates (ledgerFooterChars n) = [] := by
  unfold ledgerFooterChars
  rw [List.append_assoc]
  rw [findLD_append_clean _ _
    (cleanChars_append_single (by decide) (take_one_length _))]
  rw [findLD_append_clean _ _
    (cleanChars_append_single (cleanAny_of_forall (natDec_no_dash n)) (take_one_length _))]
  decide

theorem dash_ne_digitChar (n : Nat) : ('-' = digitChar n) = False :=
  eq_false (fun h => digitChar_ne_dash n h.symm)

theorem chars4_no_dash (n : Nat) : ∀ c ∈ chars4 n, c ≠ '-' := by
  intro c hc heq
  subst heq
  simp [chars4, dash_ne_digitChar] at hc

theorem chars2_no_dash (n : Nat) : ∀ c ∈ chars2 n, c ≠ '-' := by
  intro c hc heq
  subst heq
  simp [chars2, dash_ne_digitChar] at hc

theorem cnDateChars_no_dash (d : Date) : ∀ c ∈ cnDateChars d, c ≠ '-' := by
  intro c hc heq
  subst heq
  simp [cnDateChars, chars4, chars2, dash_ne_digitChar] at hc

theorem monthHead_cleanAny (first : Bool) (y m : Nat) :
    cleanAny (monthHeadChars first y m) = true := by
  apply cleanAny_of_forall
  intro c hc heq
  subst heq
  cases first <;> simp [monthHeadChars, chars4, chars2, dash_ne_digitChar] at hc

theorem ledgerMatchAt_bullet (d : Date) (rest : List Char) :
    ledgerMatchAt ('-' :: ' ' :: (dashDateChars d ++ rest)) = some (dashDateChars d) := by
  have hshape : dashDateChars d ++ rest =
      digitChar (d.year / 1000) :: digitChar (d.year / 100) :: digitChar (d.year / 10) ::
      digitChar d.year :: '-' :: digitChar (d.month / 10) :: digitChar d.month :: '-' ::
      digitChar (d.day / 10) :: digitChar d.day :: rest := by
    simp [dashDateChars, chars4, chars2]
  rw [hshape]
  simp [ledgerMatchAt, digitChar_isDigit, dashDateChars, chars4, chars2]

/-- The tail of a bullet line after its 12-character regex match, followed
by anything, contains no further match start until the tail ends. -/
theorem bullet_tail_cleanAny (d : Date) :
    cleanAny (' ' :: (dashDateChars d ++ (' ' :: '(' :: (cnDateChars d ++ [')', '\n'])))) = true := by
  have h1 : cleanAny (cnDateChars d ++ [')', '\n']) = true :=
    cleanAny_append (cleanAny_of_forall (cnDateChars_no_dash d)) (by decide)
  have h2 : cleanAny (' ' :: '(' :: (cnDateChars d ++ [')', '\n'])) = true :=
    cleanAny_cons (by decide) (cleanAny_cons (by decide) h1)
  have h3 : cleanAny (chars2 d.day ++ (' ' :: '(' :: (cnDateChars d ++ [')', '\n']))) = true :=
    cleanAny_append (cleanAny_of_forall (chars2_no_dash _)) h2
  have h3s : chars2 d.day ++ (' ' :: '(' :: (cnDateChars d ++ [')', '\n'])) =
      digitChar (d.day / 10) :: digitChar d.day ::
        (' ' :: '(' :: (cnDateChars d ++ [')', '\n'])) := by
    simp [chars2]
  rw [h3s] at h3
  have h4 : cleanAny ('-' :: digitChar (d.day / 10) :: digitChar d.day ::
      (' ' :: '(' :: (cnDateChars d ++ [')', '\n']))) = true :=
    cleanAny_cons_dash (digitChar_ne_space _) h3
  have h5 : cleanAny (chars2 d.month ++ '-' :: digitChar (d.day / 10) :: digitChar d.day ::
      (' ' :: '(' :: (cnDateChars d ++ [')', '\n']))) = true :=
    cleanAny_append (cleanAny_of_forall (chars2_no_dash _)) h4
  have h5s : chars2 d.month ++ '-' :: digitChar (d.day / 10) :: digitChar d.day ::
      (' ' :: '(' :: (cnDateChars d ++ [')', '\n'])) =
      digitChar (d.month / 10) :: digitChar d.month :: '-' :: digitChar (d.day / 10) ::
        digitChar d.day :: (' ' :: '(' :: (cnDateChars d ++ [')', '\n'])) := by
    simp [chars2]
  rw [h5s] at h5
  have h6 : cleanAny ('-' :: digitChar (d.month / 10) :: digitChar d.month :: '-' ::
      digitChar (d.day / 10) :: digitChar d.day ::
      (' ' :: '(' :: (cnDateChars d ++ [')', '\n']))) = true :=
    cleanAny_cons_dash (digitChar_ne_space _) h5
  have h7 : cleanAny (chars4 d.year ++ '-' :: digitChar (d.month / 10) :: digitChar d.month ::
      '-' :: digitChar (d.day / 10) :: digitChar d.day ::
      (' ' :: '(' :: (cnDateChars d ++ [')', '\n']))) = true :=
    cleanAny_append (cleanAny_of_forall (chars4_no_dash _)) h6
  have hfin : ' ' :: (dashDateChars d ++ (' ' :: '(' :: (cnDateChars d ++ [')', '\n']))) =
      ' ' :: (chars4 d.year ++ '-' :: digitChar (d.month / 10) :: digitChar d.month ::
        '-' :: digitChar (d.day / 10) :: digitChar d.day ::
        (' ' :: '(' :: (cnDateChars d ++ [')', '\n']))) := by
    simp [dashDateChars, chars2]
  rw [hfin]
  exact cleanAny_cons (by decide) h7

theorem findLD_entries : ∀ (ds : List Date) (cur : Option (Nat × Nat)) (n : Nat),
    findLedgerDates (renderEntriesChars cur ds ++ ledgerFooterChars n) =
      ds.map dashDateChars := by
  intro ds
  induction ds with
  | nil =>
    intro cur n
    show findLedgerDates (renderEntriesChars cur [] ++ ledgerFooterChars n) = []
    have h0 : renderEntriesChars cur [] = [] := by
      cases cur <;> rfl
    rw [h0, List.nil_append]
    exact findLD_footer n
  | cons d ds ih =>
    intro cur n
    have hdef : renderEntriesChars cur (d :: ds) =
        (if cur = some (d.year, d.month) then []
         else monthHeadChars (decide (cur = none)) d.year d.month) ++
        (bulletChars d ++ renderEntriesChars (some (d.year, d.month)) ds) := by
      conv_lhs => unfold renderEntriesChars
      rw [List.append_assoc]
    rw [hdef]
    rw [List.append_assoc]
    have hheadclean : cleanAny (if cur = some (d.year, d.month) then []
        else monthHeadChars (decide (cur = none)) d.year d.month) = true := by
      split
      · rfl
      · exact monthHead_cleanAny _ _ _
    rw [findLD_append_clean _ _ (cleanChars_append_single hheadclean (take_one_length _))]
    rw [List.append_assoc]
    have hbul : bulletChars d ++
        (renderEntriesChars (some (d.year, d.month)) ds ++ ledgerFooterChars n) =
        '-' :: ' ' :: (dashDateChars d ++ (' ' :: '(' :: (cnDateChars d ++ (')' :: '\n' ::
          (renderEntriesChars (some (d.year, d.month)) ds ++ ledgerFooterChars n))))) := by
      simp [bulletChars]
    rw [hbul]
    rw [findLD_cons_some (ledgerMatchAt_bullet d _)]
    have hseg : ' ' :: (dashDateChars d ++ (' ' :: '(' :: (cnDateChars d ++ (')' :: '\n' ::
        (renderEntriesChars (some (d.year, d.month)) ds ++ ledgerFooterChars n))))) =
        (' ' :: (dashDateChars d ++ (' ' :: '(' :: (cnDateChars d ++ [')', '\n'])))) ++
        (renderEntriesChars (some (d.year, d.month)) ds ++ ledgerFooterChars n) := by
      simp
    rw [hseg]
    rw [findLD_append_clean _ _
      (cleanChars_append_single (bullet_tail_cleanAny d) (take_one_length _))]
    rw [ih (some (d.year, d.month)) n]
    simp

theorem findLD_render (ts : String) (ds : List Date) (hts : TsClean ts = true) :
    findLedgerDates (renderLedger ts ds).toList = ds.map dashDateChars := by
  have h0 : (renderLedger ts ds).toList =
      ledgerPre ++ (ts.toList ++ (ledgerPost ++
        (renderEntriesChars none ds ++ ledgerFooterChars ds.length))) := by
    show ledgerHeaderChars ts.toList ++ renderEntriesChars none ds ++
        ledgerFooterChars ds.length = _
    simp [ledgerHeaderChars]
  rw [h0]
  rw [findLD_append_clean _ _ (cleanChars_append_single (by decide) (take_one_length _))]
  have hts2 : cleanChars (ts.toList ++ (ledgerPost ++
      (renderEntriesChars none ds ++ ledgerFooterChars ds.length)).take 1) = true := by
    have htake : (ledgerPost ++
        (renderEntriesChars none ds ++ ledgerFooterChars ds.length)).take 1 = ['\n'] := rfl
    rw [htake]
    exact hts
  rw [findLD_append_clean _ _ hts2]
  rw [findLD_append_clean _ _ (cleanChars_append_single (by decide) (take_one_length _))]
  exact findLD_entries ds none ds.length

/-! ## Parsing the rendered ledger back (read-your-own-write) -/

theorem daysInMonth_le_31 (y m : Nat) : daysInMonth y m ≤ 31 := by
  unfold daysInMonth
  split
  · split <;> omega
  · split <;> omega

theorem validB_bounds {d : Date} (h : d.validB = true) :
    1 ≤ d.year ∧ d.year ≤ 9999 ∧ 1 ≤ d.month ∧ d.month ≤ 12 ∧
    1 ≤ d.day ∧ d.day ≤ 31 := by
  have h31 := daysInMonth_le_31 d.year d.month
  simp only [Date.validB, Bool.and_eq_true, decide_eq_true_eq] at h
  omega

theorem parseLedgerDate_fmtDash {d : Date} (h : d.validB = true) :
    parseLedgerDate (fmtDashDate d) = some d := by
  obtain ⟨hy1, hy2, hm1, hm2, hd1, hd2⟩ := validB_bounds h
  have hshape : (fmtDashDate d).toList =
      [digitChar (d.year / 1000), digitChar (d.year / 100), digitChar (d.year / 10),
       digitChar d.year, '-', digitChar (d.month / 10), digitChar d.month, '-',
       digitChar (d.day / 10), digitChar d.day] := by
    show dashDateChars d = _
    simp [dashDateChars, chars4, chars2]
  unfold parseLedgerDate
  rw [hshape]
  simp only [digitChar_isDigit, digitVal_digitChar, Bool.and_self, Bool.true_and,
    Bool.and_true, decide_True, if_pos]
  have hyv : 1000 * (d.year / 1000 % 10) + 100 * (d.year / 100 % 10) +
      10 * (d.year / 10 % 10) + d.year % 10 = d.year := by omega
  have hmv : 10 * (d.month / 10 % 10) + d.month % 10 = d.month := by omega
  have hdv : 10 * (d.day / 10 % 10) + d.day % 10 = d.day := by omega
  rw [hyv, hmv, hdv]
  unfold mkValidDate
  have : Date.mk d.year d.month d.day = d := rfl
  rw [this, if_pos h]

theorem ledgerMatches_render (ts : String) (ds : List Date) (hts : TsClean ts = true) :
    ledgerMatches (renderLedger ts ds) = ds.map fmtDashDate := by
  unfold ledgerMatches
  rw [findLD_render ts ds hts]
  rw [List.map_map]
  rfl

theorem parseAllDates_render (ts : String) (ds : List Date) (hts : TsClean ts = true)
    (hds : ∀ d ∈ ds, d.validB = true) :
    parseAllDates (renderLedger ts ds) = ds := by
  unfold parseAllDates
  rw [ledgerMatches_render ts ds hts]
  induction ds with
  | nil => rfl
  | cons d rest ih =>
    have hd := hds d (List.mem_cons_self _ _)
    have hrest := fun x hx => hds x (List.mem_cons_of_mem _ hx)
    simp only [List.map_cons, List.filterMap_cons, parseLedgerDate_fmtDash hd]
    rw [ih hrest]

theorem parseLedgerDate_valid {s : String} {d : Date}
    (h : parseLedgerDate s = some d) : d.validB = true := by
  unfold parseLedgerDate at h
  split at h
  · split at h
    · unfold mkValidDate at h
      split at h
      · rename_i hv
        cases h
        exact hv
      · cases h
    · cases h
  · cases h

theorem parseAllDates_valid {content : String} {d : Date}
    (h : d ∈ parseAllDates content) : d.validB = true := by
  unfold parseAllDates at h
  obtain ⟨s, _, hs⟩ := List.mem_filterMap.mp h
  exact parseLedgerDate_valid hs

theorem fmtDashDate_inj {a b : Date} (ha : a.validB = true) (hb : b.validB = true)
    (h : fmtDashDate a = fmtDashDate b) : a = b := by
  have := parseLedgerDate_fmtDash ha
  rw [h, parseLedgerDate_fmtDash hb] at this
  exact (Option.some.injEq _ _ ▸ this).symm

/-! ## Ledger mutator lemmas -/

theorem mem_parseAll_of_fmt_mem {content : String} {x : Date} (hxv : x.validB = true)
    (h : fmtDashDate x ∈ ledgerMatches content) : x ∈ parseAllDates content := by
  unfold parseAllDates
  exact List.mem_filterMap.mpr ⟨_, h, parseLedgerDate_fmtDash hxv⟩

theorem mem_of_fmt_mem_map {D : List Date} {x : Date} (hxv : x.validB = true)
    (hDv : ∀ d ∈ D, d.validB = true)
    (h : fmtDashDate x ∈ D.map fmtDashDate) : x ∈ D := by
  obtain ⟨y, hy, heq⟩ := List.mem_map.mp h
  exact (fmtDashDate_inj (hDv y hy) hxv heq) ▸ hy

theorem mem_filterNewDates {x : Date} : ∀ {seen : List String} {ds : List Date},
    (∀ d ∈ ds, d.validB = true) →
    (x ∈ filterNewDates seen ds ↔ (x ∈ ds ∧ fmtDashDate x ∉ seen)) := by
  intro seen ds
  induction ds generalizing seen with
  | nil => intro _; simp [filterNewDates]
  | cons d rest ih =>
    intro hv
    have hdv := hv d (List.mem_cons_self _ _)
    have hrv := fun z hz => hv z (List.mem_cons_of_mem _ hz)
    unfold filterNewDates
    by_cases hseen : fmtDashDate d ∈ seen
    · rw [if_pos hseen]
      rw [ih hrv]
      constructor
      · rintro ⟨hx, hns⟩
        exact ⟨List.mem_cons_of_mem _ hx, hns⟩
      · rintro ⟨hx, hns⟩
        rcases List.mem_cons.mp hx with rfl | hx2
        · exact absurd hseen hns
        · exact ⟨hx2, hns⟩
    · rw [if_neg hseen]
      rw [List.mem_cons, ih hrv]
      constructor
      · rintro (rfl | ⟨hx, hns⟩)
        · exact ⟨List.mem_cons_self _ _, hseen⟩
        · refine ⟨List.mem_cons_of_mem _ hx, ?_⟩
          intro hmem
          exact hns (List.mem_cons_of_mem _ hmem)
      · rintro ⟨hx, hns⟩
        by_cases hxd : x = d
        · exact Or.inl hxd
        · right
          have hx2 : x ∈ rest := by
            rcases List.mem_cons.mp hx with heq | h2
            · exact absurd heq hxd
            · exact h2
          refine ⟨hx2, ?_⟩
          intro hmem
          rcases List.mem_cons.mp hmem with heq | hmem2
          · exact hxd (fmtDashDate_inj (hrv x hx2) hdv heq)
          · exact hns hmem2

theorem ledgerHasDate_iff {st : CrawlState} {d : Date} :
    ledgerHasDate st d = true ↔ d ∈ parseAllDates (st.ledger.getD "") := by
  simp [ledgerHasDate]

theorem update_eq (ts : String) (st : CrawlState) (dates : List Date) :
    update_not_exist_file ts st dates =
      if dates = [] then st
      else if filterNewDates (ledgerMatches (st.ledger.getD "")) dates = [] then st
      else { st with ledger := some (renderLedger ts (sortDedup
        ((ledgerMatches (st.ledger.getD "")).filterMap parseLedgerDate ++
          filterNewDates (ledgerMatches (st.ledger.getD "")) dates))) } := rfl

theorem remove_eq (ts : String) (st : CrawlState) (d : Date) :
    remove_date_from_not_exist ts st d =
      match st.ledger with
      | none => st
      | some content =>
        if (((ledgerMatches content).filterMap parseLedgerDate).filter
            (fun x => decide (fmtDashDate x ≠ fmtDashDate d))).length =
            (ledgerMatches content).length
        then st
        else { st with ledger := some (renderLedger ts (sortDedup
          (((ledgerMatches content).filterMap parseLedgerDate).filter
            (fun x => decide (fmtDashDate x ≠ fmtDashDate d))))) } := rfl

theorem update_files_net (ts : String) (st : CrawlState) (dates : List Date) :
    (update_not_exist_file ts st dates).files = st.files ∧
    (update_not_exist_file ts st dates).net = st.net := by
  rw [update_eq]
  split
  · exact ⟨rfl, rfl⟩
  · split
    · exact ⟨rfl, rfl⟩
    · exact ⟨rfl, rfl⟩

theorem remove_files_net (ts : String) (st : CrawlState) (d : Date) :
    (remove_date_from_not_exist ts st d).files = st.files ∧
    (remove_date_from_not_exist ts st d).net = st.net := by
  rw [remove_eq]
  split
  · exact ⟨rfl, rfl⟩
  · split
    · exact ⟨rfl, rfl⟩
    · exact ⟨rfl, rfl⟩

theorem update_has {ts : String} {st : CrawlState} {dates : List Date}
    (hts : TsClean ts = true) (hvd : ∀ d ∈ dates, d.validB = true) {x : Date}
    (hx : x ∈ dates ∨ ledgerHasDate st x = true) :
    ledgerHasDate (update_not_exist_file ts st dates) x = true := by
  have hxv : x.validB = true := by
    rcases hx with hx | hx
    · exact hvd x hx
    · exact parseAllDates_valid (ledgerHasDate_iff.mp hx)
  rw [update_eq]
  by_cases hdat : dates = []
  · rw [if_pos hdat]
    rcases hx with hx | hx
    · rw [hdat] at hx
      cases hx
    · exact hx
  · rw [if_neg hdat]
    set content := st.ledger.getD "" with hcontent
    by_cases hnew : filterNewDates (ledgerMatches content) dates = []
    · rw [if_pos hnew]
      rcases hx with hx | hx
      · have hfmt : fmtDashDate x ∈ ledgerMatches content := by
          by_contra hno
          have : x ∈ filterNewDates (ledgerMatches content) dates :=
            (mem_filterNewDates hvd).mpr ⟨hx, hno⟩
          rw [hnew] at this
          cases this
        rw [ledgerHasDate_iff]
        exact mem_parseAll_of_fmt_mem hxv hfmt
      · exact hx
    · rw [if_neg hnew]
      have hvalid : ∀ z ∈ sortDedup ((ledgerMatches content).filterMap parseLedgerDate ++
          filterNewDates (ledgerMatches content) dates), z.validB = true := by
        intro z hz
        rcases List.mem_append.mp (mem_sortDedup.mp hz) with hz2 | hz2
        · exact parseAllDates_valid (show z ∈ parseAllDates content from hz2)
        · exact hvd z ((mem_filterNewDates hvd).mp hz2).1
      rw [ledgerHasDate_iff]
      show x ∈ parseAllDates (renderLedger ts _)
      rw [parseAllDates_render ts _ hts hvalid]
      rw [mem_sortDedup, List.mem_append]
      rcases hx with hx | hx
      · by_cases hfmt : fmtDashDate x ∈ ledgerMatches content
        · exact Or.inl (mem_parseAll_of_fmt_mem hxv hfmt)
        · exact Or.inr ((mem_filterNewDates hvd).mpr ⟨hx, hfmt⟩)
      · exact Or.inl (ledgerHasDate_iff.mp hx)

theorem remove_not_has {ts : String} {st : CrawlState} {d : Date}
    (hts : TsClean ts = true) :
    ledgerHasDate (remove_date_from_not_exist ts st d) d = false := by
  rw [remove_eq]
  split
  · rename_i hled
    rw [Bool.eq_false_iff]
    intro h
    rw [ledgerHasDate_iff, hled] at h
    cases h
  · rename_i content hled
    set filtered := ((ledgerMatches content).filterMap parseLedgerDate).filter
      (fun x => decide (fmtDashDate x ≠ fmtDashDate d)) with hfiltered
    by_cases hlen : filtered.length = (ledgerMatches content).length
    · rw [if_pos hlen]
      rw [Bool.eq_false_iff]
      intro h
      rw [ledgerHasDate_iff, hled] at h
      have hin : d ∈ (ledgerMatches content).filterMap parseLedgerDate := h
      have hall : ∀ z ∈ (ledgerMatches content).filterMap parseLedgerDate,
          decide (fmtDashDate z ≠ fmtDashDate d) = true := by
        by_contra hno
        push_neg at hno
        obtain ⟨z, hz, hzf⟩ := hno
        have hlt : filtered.length <
            ((ledgerMatches content).filterMap parseLedgerDate).length := by
          rw [hfiltered]
          apply List.length_filter_lt_length_iff_exists.mpr
          exact ⟨z, hz, by simpa using hzf⟩
        have h2 : ((ledgerMatches content).filterMap parseLedgerDate).length ≤
            (ledgerMatches content).length := List.length_filterMap_le _ _
        omega
      have := hall d hin
      simp at this
    · rw [if_neg hlen]
      rw [Bool.eq_false_iff]
      intro h
      rw [ledgerHasDate_iff] at h
      have hvalid : ∀ z ∈ sortDedup filtered, z.validB = true := by
        intro z hz
        have hz2 := mem_sortDedup.mp hz
        rw [hfiltered] at hz2
        exact parseAllDates_valid (show z ∈ parseAllDates content from
          (List.mem_filter.mp hz2).1)
      have hgd : ((({ st with ledger := some (renderLedger ts (sortDedup filtered)) } :
          CrawlState).ledger).getD "") = renderLedger ts (sortDedup filtered) := rfl
      rw [hgd, parseAllDates_render ts _ hts hvalid] at h
      have hmem := mem_sortDedup.mp h
      rw [hfiltered] at hmem
      have := (List.mem_filter.mp hmem).2
      simp at this

/-! ## Ledger-consistency invariant (spec section 8, "Ledger consistency") -/

theorem ledger_step_add {st : CrawlState} {D : List Date} {ts : String} {ds : List Date}
    (habs : LedgerAbs st.ledger D) (hsort : D.Pairwise (fun a b => Date.lt a b = true))
    (hval : ∀ d ∈ D, d.validB = true) (hts : TsClean ts = true)
    (hds : ∀ d ∈ ds, d.validB = true) :
    LedgerAbs (update_not_exist_file ts st ds).ledger (sortDedup (D ++ ds)) := by
  rw [update_eq]
  by_cases hd0 : ds = []
  · rw [if_pos hd0]
    subst hd0
    rw [List.append_nil, sortDedup_eq_self hsort]
    exact habs
  · rw [if_neg hd0]
    rcases habs with ⟨hnone, hDnil⟩ | ⟨ts0, hts0, hsome⟩
    · subst hDnil
      have hcontent : st.ledger.getD "" = "" := by rw [hnone]; rfl
      have hmatches : ledgerMatches (st.ledger.getD "") = [] := by rw [hcontent]; rfl
      rw [hmatches]
      have hnonempty : filterNewDates [] ds ≠ [] := by
        cases ds with
        | nil => exact absurd rfl hd0
        | cons a rest =>
          intro hcontra
          have : a ∈ filterNewDates ([] : List String) (a :: rest) :=
            (mem_filterNewDates hds).mpr ⟨List.mem_cons_self _ _, by simp⟩
          rw [hcontra] at this
          cases this
      rw [if_neg hnonempty]
      refine Or.inr ⟨ts, hts, ?_⟩
      have hcongr : sortDedup (([] : List String).filterMap parseLedgerDate ++
          filterNewDates [] ds) = sortDedup ([] ++ ds) := by
        apply sortDedup_congr
        intro x
        simp only [List.filterMap_nil, List.nil_append]
        rw [mem_filterNewDates hds]
        simp
      rw [hcongr]
    · have hcontent : st.ledger.getD "" = renderLedger ts0 D := by rw [hsome]; rfl
      have hmatches : ledgerMatches (st.ledger.getD "") = D.map fmtDashDate := by
        rw [hcontent]
        exact ledgerMatches_render ts0 D hts0
      have hparse : (ledgerMatches (st.ledger.getD "")).filterMap parseLedgerDate = D := by
        show parseAllDates (st.ledger.getD "") = D
        rw [hcontent]
        exact parseAllDates_render ts0 D hts0 hval
      rw [hmatches] at *
      by_cases hnew : filterNewDates (D.map fmtDashDate) ds = []
      · rw [if_pos hnew]
        have hDD : sortDedup (D ++ ds) = D := by
          have hmem : ∀ x, x ∈ D ++ ds ↔ x ∈ D := by
            intro x
            rw [List.mem_append]
            constructor
            · rintro (hx | hx)
              · exact hx
              · by_cases hfmt : fmtDashDate x ∈ D.map fmtDashDate
                · exact mem_of_fmt_mem_map (hds x hx) hval hfmt
                · have : x ∈ filterNewDates (D.map fmtDashDate) ds :=
                    (mem_filterNewDates hds).mpr ⟨hx, hfmt⟩
                  rw [hnew] at this
                  cases this
            · exact Or.inl
          rw [sortDedup_congr hmem, sortDedup_eq_self hsort]
        rw [hDD]
        exact Or.inr ⟨ts0, hts0, hsome⟩
      · rw [if_neg hnew]
        refine Or.inr ⟨ts, hts, ?_⟩
        have hcongr : sortDedup ((D.map fmtDashDate).filterMap parseLedgerDate ++
            filterNewDates (D.map fmtDashDate) ds) = sortDedup (D ++ ds) := by
          rw [hparse]
          apply sortDedup_congr
          intro x
          rw [List.mem_append, List.mem_append, mem_filterNewDates hds]
          constructor
          · rintro (hx | ⟨hx, _⟩)
            · exact Or.inl hx
            · exact Or.inr hx
          · rintro (hx | hx)
            · exact Or.inl hx
            · by_cases hfmt : fmtDashDate x ∈ D.map fmtDashDate
              · exact Or.inl (mem_of_fmt_mem_map (hds x hx) hval hfmt)
              · exact Or.inr ⟨hx, hfmt⟩
        rw [hcongr]

theorem remove_eq_none {ts : String} {st : CrawlState} {d : Date}
    (h : st.ledger = none) : remove_date_from_not_exist ts st d = st := by
  unfold remove_date_from_not_exist
  rw [h]

theorem remove_eq_some {ts : String} {st : CrawlState} {content : String} {d : Date}
    (h : st.ledger = some content) :
    remove_date_from_not_exist ts st d =
      (if (((ledgerMatches content).filterMap parseLedgerDate).filter
          (fun x => decide (fmtDashDate x ≠ fmtDashDate d))).length =
          (ledgerMatches content).length
       then st
       else { st with ledger := some (renderLedger ts (sortDedup
         (((ledgerMatches content).filterMap parseLedgerDate).filter
           (fun x => decide (fmtDashDate x ≠ fmtDashDate d))))) }) := by
  unfold remove_date_from_not_exist
  rw [h]

theorem ledger_step_remove {st : CrawlState} {D : List Date} {ts : String} {d : Date}
    (habs : LedgerAbs st.ledger D) (hsort : D.Pairwise (fun a b => Date.lt a b = true))
    (hval : ∀ z ∈ D, z.validB = true) (hts : TsClean ts = true) (hd : d.validB = true) :
    LedgerAbs (remove_date_from_not_exist ts st d).ledger
      (D.filter (fun x => !(x = d))) := by
  rcases habs with ⟨hnone, hDnil⟩ | ⟨ts0, hts0, hsome⟩
  · rw [remove_eq_none hnone]
    subst hDnil
    exact Or.inl ⟨hnone, rfl⟩
  · rw [remove_eq_some hsome]
    have hmatches : ledgerMatches (renderLedger ts0 D) = D.map fmtDashDate :=
      ledgerMatches_render ts0 D hts0
    have hparse : (ledgerMatches (renderLedger ts0 D)).filterMap parseLedgerDate = D := by
      show parseAllDates (renderLedger ts0 D) = D
      exact parseAllDates_render ts0 D hts0 hval
    rw [hparse, hmatches]
    have hfcongr : D.filter (fun x => decide (fmtDashDate x ≠ fmtDashDate d)) =
        D.filter (fun x => !(x = d)) := by
      apply List.filter_congr
      intro x hx
      by_cases hxd : x = d
      · subst hxd
        simp
      · have : fmtDashDate x ≠ fmtDashDate d := by
          intro heq
          exact hxd (fmtDashDate_inj (hval x hx) hd heq)
        simp [hxd, this]
    rw [hfcongr]
    have hlenmap : (D.map fmtDashDate).length = D.length := List.length_map _ _
    by_cases hlen : (D.filter (fun x => !(x = d))).length = (D.map fmtDashDate).length
    · rw [if_pos hlen]
      have hfs : D.filter (fun x => !(x = d)) = D := by
        apply List.filter_eq_self.mpr
        intro z hz
        by_contra hno
        have : (D.filter (fun x => !(x = d))).length < D.length := by
          apply List.length_filter_lt_length_iff_exists.mpr
          refine ⟨z, hz, ?_⟩
          simpa using hno
        omega
      rw [hfs]
      exact Or.inr ⟨ts0, hts0, hsome⟩
    · rw [if_neg hlen]
      refine Or.inr ⟨ts, hts, ?_⟩
      have hsorted : (D.filter (fun x => !(x = d))).Pairwise
          (fun a b => Date.lt a b = true) :=
        hsort.sublist (List.filter_sublist _)
      rw [sortDedup_eq_self hsorted]

theorem ledger_ops_inv : ∀ (ops : List LedgerOp) (st : CrawlState) (D : List Date),
    LedgerOpsWF ops → LedgerAbs st.ledger D →
    D.Pairwise (fun a b => Date.lt a b = true) → (∀ d ∈ D, d.validB = true) →
    LedgerAbs (applyLedgerOps st ops).ledger (specLedger D ops) := by
  intro ops
  induction ops with
  | nil =>
    intro st D _ habs _ _
    exact habs
  | cons op rest ih =>
    intro st D hwf habs hsort hval
    have hop := hwf op (List.mem_cons_self _ _)
    have hrest : LedgerOpsWF rest := fun o ho => hwf o (List.mem_cons_of_mem _ ho)
    cases op with
    | add ts ds =>
      obtain ⟨hts, hds⟩ := hop
      show LedgerAbs (applyLedgerOps (update_not_exist_file ts st ds) rest).ledger
        (specLedger (sortDedup (D ++ ds)) rest)
      refine ih _ _ hrest (ledger_step_add habs hsort hval hts hds)
        (pairwise_sortDedup _) ?_
      intro z hz
      rcases List.mem_append.mp (mem_sortDedup.mp hz) with hz2 | hz2
      · exact hval z hz2
      · exact hds z hz2
    | remove ts d =>
      obtain ⟨hts, hd⟩ := hop
      show LedgerAbs (applyLedgerOps (remove_date_from_not_exist ts st d) rest).ledger
        (specLedger (D.filter (fun x => !(x = d))) rest)
      refine ih _ _ hrest (ledger_step_remove habs hsort hval hts hd)
        (hsort.sublist (List.filter_sublist _)) ?_
      intro z hz
      exact hval z (List.mem_of_mem_filter hz)

/-! # Claim theorems -/

/-- Claim C3: for every sequence of `record_missing_date` /
`update_not_exist_file` and `remove_date_from_not_exist` calls starting
from an empty or well-formed ledger file, the final `not_exist.md` is
exactly the rendered document of the set of dates implied by the unions
and removals of the call sequence — deduplicated, sorted ascending,
grouped under one month heading, one `- YYYY-MM-DD (<Chinese date>)`
bullet per date, with the `**总计**` count equal to the number of listed
dates (all of which `renderLedger` encodes). -/
theorem c3_ledger_consistency (ops : List LedgerOp) (st : CrawlState) (D : List Date)
    (hwf : LedgerOpsWF ops) (hwell : LedgerAbs st.ledger D)
    (hsort : D.Pairwise (fun a b => Date.lt a b = true))
    (hval : ∀ d ∈ D, d.validB = true) :
    LedgerAbs (applyLedgerOps st ops).ledger (specLedger D ops) :=
  ledger_ops_inv ops st D hwf hwell hsort hval

/-- Witness for C3: a concrete add/add/remove sequence from the empty
ledger. -/
theorem c3_ledger_consistency_witness :
    (LedgerOpsWF [LedgerOp.add "2025-06-01 10:00:00" [Date.mk 2025 1 5, Date.mk 2025 1 2],
       LedgerOp.remove "2025-06-01 10:00:01" (Date.mk 2025 1 5)] ∧
     LedgerAbs emptyState.ledger [] ∧
     ([] : List Date).Pairwise (fun a b => Date.lt a b = true) ∧
     (∀ d ∈ ([] : List Date), d.validB = true)) ∧
    LedgerAbs (applyLedgerOps emptyState
        [LedgerOp.add "2025-06-01 10:00:00" [Date.mk 2025 1 5, Date.mk 2025 1 2],
         LedgerOp.remove "2025-06-01 10:00:01" (Date.mk 2025 1 5)]).ledger
      (specLedger []
        [LedgerOp.add "2025-06-01 10:00:00" [Date.mk 2025 1 5, Date.mk 2025 1 2],
         LedgerOp.remove "2025-06-01 10:00:01" (Date.mk 2025 1 5)]) := by
  have hwf : LedgerOpsWF [LedgerOp.add "2025-06-01 10:00:00"
      [Date.mk 2025 1 5, Date.mk 2025 1 2],
      LedgerOp.remove "2025-06-01 10:00:01" (Date.mk 2025 1 5)] := by
    intro op hop
    rcases List.mem_cons.mp hop with rfl | hop2
    · exact ⟨by decide, by decide⟩
    · rcases List.mem_cons.mp hop2 with rfl | hop3
      · exact ⟨by decide, by decide⟩
      · cases hop3
  have hwell : LedgerAbs emptyState.ledger [] := Or.inl ⟨rfl, rfl⟩
  have hsort : ([] : List Date).Pairwise (fun a b => Date.lt a b = true) :=
    List.Pairwise.nil
  have hval : ∀ d ∈ ([] : List Date), d.validB = true := by intro d h; cases h
  exact ⟨⟨hwf, hwell, hsort, hval⟩,
    c3_ledger_consistency _ emptyState [] hwf hwell hsort hval⟩

/-- Claim C8: for every date strictly after today, the crawl returns
immediately with `failed = 1`, `success = skipped = 0`, and the state —
saved files, Missing-Date Ledger, and the network-request log — is
returned untouched (zero network calls, no file written). -/
theorem c8_future_date_guard (o : Oracle) (st : CrawlState) (d : Date)
    (h : Date.lt o.nowDate d = true) :
    crawl_and_save_from_directory o st d = (Stats.mk 0 1 0, st) := by
  unfold crawl_and_save_from_directory
  rw [if_pos h]

/-- Witness for C8: tomorrow relative to the scenario clock. -/
theorem c8_future_date_guard_witness :
    Date.lt cexOracle.nowDate (Date.mk 2025 6 2) = true ∧
    crawl_and_save_from_directory cexOracle emptyState (Date.mk 2025 6 2) =
      (Stats.mk 0 1 0, emptyState) :=
  ⟨by decide, c8_future_date_guard cexOracle emptyState (Date.mk 2025 6 2) (by decide)⟩

/-- Claim C6: a second run of the full per-date fetch for a non-future
date whose news file was already saved is a pure skip — it returns
`skipped = 1`, `success = failed = 0`, performs no network fetch, and
leaves the saved file and the ledger (the whole state) unchanged. -/
theorem c6_idempotent_skip (o : Oracle) (st : CrawlState) (d : Date)
    (hfut : Date.lt o.nowDate d = false)
    (hex : check_news_file_exists st d = true) :
    crawl_and_save_from_directory o st d = (Stats.mk 0 0 1, st) := by
  unfold crawl_and_save_from_directory
  rw [if_neg (by simp [hfut])]
  by_cases htoday : (d = o.nowDate && decide (o.nowHour < 19)) = true
  · rw [if_pos htoday]
  · rw [if_neg htoday, if_pos hex]

/-- Witness for C6: the scenario date with its file already present. -/
theorem c6_idempotent_skip_witness :
    Date.lt cexOracle.nowDate cexDate = false ∧
    check_news_file_exists (CrawlState.mk [("20250102.md", "x")] none []) cexDate = true ∧
    crawl_and_save_from_directory cexOracle
        (CrawlState.mk [("20250102.md", "x")] none []) cexDate =
      (Stats.mk 0 0 1, CrawlState.mk [("20250102.md", "x")] none []) :=
  ⟨by decide, by decide,
    c6_idempotent_skip cexOracle (CrawlState.mk [("20250102.md", "x")] none []) cexDate
      (by decide) (by decide)⟩

/-- Unfolding step for the regex search at a matching head position. -/
theorem searchCnDate_cons_some {c : Char} {rest : List Char} {r : Nat × Nat × Nat}
    (h : cnDateAt (c :: rest) = some r) : searchCnDate (c :: rest) = some r := by
  unfold searchCnDate
  rw [h]

/-- Claim C10: for every valid calendar date, extracting a date from the
default title built for it — the zero-padded Chinese date followed by
`新闻联播文字版` — returns exactly that date (never `None`, never a
different date). -/
theorem c10_title_roundtrip (d : Date) (h : d.validB = true) :
    extract_date_from_title (defaultTitle d) = some d := by
  obtain ⟨hy1, hy2, hm1, hm2, hd1, hd2⟩ := validB_bounds h
  have hshape : (defaultTitle d).toList =
      digitChar (d.year / 1000) :: digitChar (d.year / 100) :: digitChar (d.year / 10) ::
      digitChar d.year :: '年' :: digitChar (d.month / 10) :: digitChar d.month :: '月' ::
      digitChar (d.day / 10) :: digitChar d.day :: '日' :: "新闻联播文字版".toList := by
    show cnDateChars d ++ "新闻联播文字版".toList = _
    simp [cnDateChars, chars4, chars2]
  have hat : cnDateAt (digitChar (d.year / 1000) :: digitChar (d.year / 100) ::
      digitChar (d.year / 10) :: digitChar d.year :: '年' :: digitChar (d.month / 10) ::
      digitChar d.month :: '月' :: digitChar (d.day / 10) :: digitChar d.day :: '日' ::
      "新闻联播文字版".toList) = some (d.year, d.month, d.day) := by
    simp only [cnDateAt, takeNum12, digitChar_isDigit, digitVal_digitChar, Bool.and_self,
      Bool.true_and, Bool.and_true, decide_True, if_true]
    simp only [Option.some.injEq, Prod.mk.injEq]
    refine ⟨by omega, by omega, by omega⟩
  unfold extract_date_from_title
  rw [hshape, searchCnDate_cons_some hat]
  show mkValidDate d.year d.month d.day = some d
  unfold mkValidDate
  have heta : Date.mk d.year d.month d.day = d := rfl
  rw [heta, if_pos h]

/-- Witness for C10: the scenario date. -/
theorem c10_title_roundtrip_witness :
    (cexDate).validB = true ∧ extract_date_from_title (defaultTitle cexDate) = some cexDate :=
  ⟨by decide, c10_title_roundtrip cexDate (by decide)⟩

/-! ## Formatter non-crash -/

theorem lookIsTitle_ok (lines : List (List Char)) :
    ∀ (fuel idx : Nat), ∃ b, lookIsTitle lines fuel idx = Except.ok b := by
  intro fuel
  induction fuel with
  | zero => intro idx; exact ⟨false, rfl⟩
  | succ f ih =>
    intro idx
    unfold lookIsTitle
    by_cases h : idx < lines.length
    · rw [if_pos h]
      have hget : lines.get? idx = some (lines.get ⟨idx, h⟩) := List.get?_eq_get h
      have hpy : pyGetLine lines idx = Except.ok (lines.get ⟨idx, h⟩) := by
        unfold pyGetLine
        rw [hget]
      rw [hpy]
      show ∃ b, (if stripChars (lines.get ⟨idx, h⟩) = [] then lookIsTitle lines f (idx + 1)
        else Except.ok (nextKeyword (stripChars (lines.get ⟨idx, h⟩)) ||
          decide ((stripChars (lines.get ⟨idx, h⟩)).length > 50))) = Except.ok b
      by_cases hb : stripChars (lines.get ⟨idx, h⟩) = []
      · rw [if_pos hb]
        exact ih (idx + 1)
      · rw [if_neg hb]
        exact ⟨_, rfl⟩
    · rw [if_neg h]
      exact ⟨false, rfl⟩

theorem fncStep_ok (lines : List (List Char)) (i : Nat) (raw : List Char) (st : FmtState) :
    ∃ st2, fncStep lines i raw st = Except.ok st2 := by
  obtain ⟨b, hb⟩ := lookIsTitle_ok lines lines.length (i + 1)
  unfold fncStep
  dsimp only
  by_cases h1 : stripChars raw = []
  · rw [if_pos h1]; exact ⟨_, rfl⟩
  rw [if_neg h1]
  by_cases h2 : (containsSub "今日新闻联播主要内容".toList (stripChars raw) ||
      containsSub "新闻联播主要内容".toList (stripChars raw)) = true
  · rw [if_pos h2]; exact ⟨_, rfl⟩
  rw [if_neg h2]
  by_cases h3 : (containsSub "以下为详细的文字版全文".toList (stripChars raw) ||
      containsSub "以下为详细".toList (stripChars raw)) = true
  · rw [if_pos h3]; exact ⟨_, rfl⟩
  rw [if_neg h3]
  by_cases h4 : (st.inMain && !st.inDetail) = true
  · rw [if_pos h4]; exact ⟨_, rfl⟩
  rw [if_neg h4]
  by_cases h5 : st.inDetail = true
  · rw [if_pos h5]
    by_cases h6 : (st.nextTitle && titleShape (stripChars raw)) = true
    · rw [if_pos h6]; exact ⟨_, rfl⟩
    rw [if_neg h6]
    by_cases h7 : stripChars raw = st.prevLine
    · rw [if_pos h7]; exact ⟨_, rfl⟩
    rw [if_neg h7]
    by_cases h8 : bracketTitle (stripChars raw) = true
    · rw [if_pos h8]; exact ⟨_, rfl⟩
    rw [if_neg h8]
    by_cases h9 : (digitEnum (stripChars raw) || parenWrap (stripChars raw)) = true
    · rw [if_pos h9]; exact ⟨_, rfl⟩
    rw [if_neg h9]
    by_cases h10 : titleShapeFull (stripChars raw) = true
    · rw [if_pos h10, hb]
      cases b
      · exact ⟨_, rfl⟩
      · exact ⟨_, rfl⟩
    · rw [if_neg h10]
      exact ⟨_, rfl⟩
  · rw [if_neg h5]
    exact ⟨_, rfl⟩

theorem fncLoop_ok (lines : List (List Char)) :
    ∀ (fuel i : Nat) (st : FmtState), ∃ st2, fncLoop lines fuel i st = Except.ok st2 := by
  intro fuel
  induction fuel with
  | zero => intro i st; exact ⟨st, rfl⟩
  | succ f ih =>
    intro i st
    unfold fncLoop
    by_cases h : i < lines.length
    · rw [dif_pos h]
      obtain ⟨st2, hst2⟩ := fncStep_ok lines i (lines.get ⟨i, h⟩) st
      rw [hst2]
      exact ih (i + 1) st2
    · rw [dif_neg h]
      exact ⟨st, rfl⟩

/-- Claim C7: `format_news_content` never raises for any string input —
the one fallible operation, the guarded `lines[next_line_idx]` subscript
of the lookahead loop, is always in bounds, so the function always
returns `Except.ok` — and the empty string formats to the empty string. -/
theorem c7_formatter_non_crash :
    (∀ s : String, ∃ r, format_news_content s = Except.ok r) ∧
    format_news_content "" = Except.ok "" := by
  constructor
  · intro s
    unfold format_news_content
    dsimp only
    obtain ⟨st2, hst2⟩ := fncLoop_ok (splitLines s.toList)
      (splitLines s.toList).length 0 ⟨[], false, false, false, [], []⟩
    rw [hst2]
    exact ⟨_, rfl⟩
  · rfl

/-- Claim C5: in the detail section with the next-line-is-heading flag
disarmed, the 8-character line `国家推进改革发展` (no sentence-final
punctuation, no enumerator prefix) is emitted as a `###` heading when the
next non-blank line contains `国务院`, and as an ordinary paragraph line
when the next line is short (under 50 characters) and keyword-free; the
final conjuncts check the claim's conditions on the two inputs. -/
theorem c5_heading_boundary :
    ("### 国家推进改革发展" ∈ outputLines
      "以下为详细的文字版全文：\n今天的主要新闻内容如下\n国家推进改革发展\n国务院今日召开会议") ∧
    ("国家推进改革发展" ∈ outputLines
      "以下为详细的文字版全文：\n今天的主要新闻内容如下\n国家推进改革发展\n大家都很高兴啊") ∧
    ("### 国家推进改革发展" ∉ outputLines
      "以下为详细的文字版全文：\n今天的主要新闻内容如下\n国家推进改革发展\n大家都很高兴啊") ∧
    "国家推进改革发展".toList.length = 8 ∧
    titleShape "国家推进改革发展".toList = true ∧
    containsSub "国务院".toList "国务院今日召开会议".toList = true ∧
    "大家都很高兴啊".toList.length < 50 ∧
    nextKeyword "大家都很高兴啊".toList = false := by
  refine ⟨by decide, by decide, by decide, by decide, by decide, by decide, by decide, by decide⟩

/-! ## C1: when is the Missing-Date Ledger written? -/

/-- Claim C1 counterexample: in the scenario where govopendata fails, both
legacy article-URL paddings return 404, and the directory listing then
yields a working article, the run saves one file successfully
(`success = 1`) and yet the date sits in the Missing-Date Ledger — the
entry was appended by `fetch_news_by_date` before the directory-listing
fallback (a source that did yield content) was ever consulted, refuting
"recorded only after every URL shape and every source was exhausted". -/
theorem c1_counterexample :
    (crawl_and_save_from_directory cexOracle emptyState cexDate).1.success = 1 ∧
    ledgerHasDate (crawl_and_save_from_directory cexOracle emptyState cexDate).2 cexDate
      = true := by
  refine ⟨by decide, by decide⟩

theorem govPhase_none {o : Oracle} (st : CrawlState) (d : Date)
    (hgov : GovFallsThrough o) :
    ∃ evs, govPhase o st d = (none, { st with net := evs ++ st.net }) ∧
      ∀ e ∈ evs, e.isDir = false := by
  unfold govPhase GovFallsThrough at *
  cases hg : o.gov with
  | ok200 t c =>
    rw [hg] at hgov
    have hc : c = "" := hgov
    refine ⟨[NetEvent.gov], ?_, ?_⟩
    · dsimp only [pushNet]
      rw [if_neg (by simp [hc])]
      rfl
    · intro e he
      rcases List.mem_cons.mp he with rfl | h2
      · rfl
      · cases h2
  | forbidden =>
    rw [hg] at hgov
    cases hs : o.selenium with
    | some p =>
      obtain ⟨t, c⟩ := p
      rw [hs] at hgov
      have hc : c = "" := hgov
      refine ⟨[NetEvent.selenium, NetEvent.gov], ?_, ?_⟩
      · dsimp only [pushNet]
        rw [if_neg (by simp [hc])]
        rfl
      · intro e he
        rcases List.mem_cons.mp he with rfl | h2
        · rfl
        · rcases List.mem_cons.mp h2 with rfl | h3
          · rfl
          · cases h3
    | none =>
      refine ⟨[NetEvent.selenium, NetEvent.gov], rfl, ?_⟩
      intro e he
      rcases List.mem_cons.mp he with rfl | h2
      · rfl
      · rcases List.mem_cons.mp h2 with rfl | h3
        · rfl
        · cases h3
  | otherStatus =>
    refine ⟨[NetEvent.gov], rfl, ?_⟩
    intro e he
    rcases List.mem_cons.mp he with rfl | h2
    · rfl
    · cases h2
  | netError =>
    refine ⟨[NetEvent.gov], rfl, ?_⟩
    intro e he
    rcases List.mem_cons.mp he with rfl | h2
    · rfl
    · cases h2

/-- Claim C1 (amended): as soon as the govopendata source yields nothing
and the legacy article URL returns 404 under both paddings,
`fetch_news_by_date` itself appends the date to the Missing-Date Ledger —
before any directory-listing request has been made (the request log gains
no directory events), and with no file written. -/
theorem c1_amended_record_before_directory (o : Oracle) (st : CrawlState) (d : Date)
    (hgov : GovFallsThrough o)
    (h404a : o.legacy true 0 = LegacyResp.notFound)
    (h404b : o.legacy false 0 = LegacyResp.notFound)
    (hts : TsClean o.ts = true) (hd : d.validB = true) :
    (fetch_news_by_date o st d 3).1 = none ∧
    ledgerHasDate (fetch_news_by_date o st d 3).2 d = true ∧
    (fetch_news_by_date o st d 3).2.net.filter (fun e => e.isDir) =
      st.net.filter (fun e => e.isDir) ∧
    (fetch_news_by_date o st d 3).2.files = st.files := by
  obtain ⟨evs, hgp, hevs⟩ := govPhase_none st d hgov
  set st1 : CrawlState := { st with net := evs ++ st.net } with hst1
  have hleg1 : legacyLoop o d true 3 3 0 st1 =
      (LegacyStep.nextFormat, pushNet st1 (NetEvent.legacy true 0)) := by
    show legacyLoop o d true 3 (2 + 1) 0 st1 = _
    unfold legacyLoop
    rw [h404a]
    rfl
  have hleg2 : legacyLoop o d false 3 3 0 (pushNet st1 (NetEvent.legacy true 0)) =
      (LegacyStep.giveUpRecord,
        pushNet (pushNet st1 (NetEvent.legacy true 0)) (NetEvent.legacy false 0)) := by
    show legacyLoop o d false 3 (2 + 1) 0 _ = _
    unfold legacyLoop
    rw [h404b]
    rfl
  have hfetch : fetch_news_by_date o st d 3 =
      (none, record_missing_date o.ts
        (pushNet (pushNet st1 (NetEvent.legacy true 0)) (NetEvent.legacy false 0)) d) := by
    simp only [fetch_news_by_date, hgp, hleg1, hleg2]
  rw [hfetch]
  refine ⟨rfl, ?_, ?_, ?_⟩
  · exact update_has hts (by
      intro z hz
      rcases List.mem_cons.mp hz with rfl | h2
      · exact hd
      · cases h2) (Or.inl (List.mem_cons_self _ _))
  · have hnet : (record_missing_date o.ts
        (pushNet (pushNet st1 (NetEvent.legacy true 0)) (NetEvent.legacy false 0)) d).net =
        NetEvent.legacy false 0 :: NetEvent.legacy true 0 :: (evs ++ st.net) :=
      (update_files_net _ _ _).2
    rw [hnet]
    rw [List.filter_cons_of_neg (by simp [NetEvent.isDir])]
    rw [List.filter_cons_of_neg (by simp [NetEvent.isDir])]
    rw [List.filter_append]
    rw [List.filter_eq_nil_iff.mpr (by
      intro e he
      simp [hevs e he])]
    rfl
  · exact (update_files_net _ _ _).1

theorem c1_amended_record_before_directory_witness :
    (fetch_news_by_date cexOracle emptyState cexDate 3).1 = none ∧
    ledgerHasDate (fetch_news_by_date cexOracle emptyState cexDate 3).2 cexDate = true ∧
    (fetch_news_by_date cexOracle emptyState cexDate 3).2.net.filter (fun e => e.isDir) =
      emptyState.net.filter (fun e => e.isDir) ∧
    (fetch_news_by_date cexOracle emptyState cexDate 3).2.files = emptyState.files :=
  c1_amended_record_before_directory cexOracle emptyState cexDate
    True.intro rfl rfl (by decide) (by decide)

theorem save_news_to_file_ledger (o : Oracle) (st : CrawlState) (t c : String)
    (d : Date) (su : Option String) :
    ((save_news_to_file o st t c d su).2).ledger = st.ledger := by
  unfold save_news_to_file
  by_cases h : o.saveOk = true
  · rw [if_pos h]
    rfl
  · rw [if_neg h]

theorem save_news_to_file_ok (o : Oracle) (st : CrawlState) (t c : String)
    (d : Date) (su : Option String) (h : o.saveOk = true) :
    ∃ fname st2, save_news_to_file o st t c d su = (some fname, st2) ∧
      st2.ledger = st.ledger := by
  unfold save_news_to_file
  rw [if_pos h]
  exact ⟨_, _, rfl, rfl⟩

theorem saveLoopV1_ledger (o : Oracle) :
    ∀ (newsList : List (String × String × Date × String)) (st : CrawlState)
      (acc : Stats), ((saveLoopV1 o st acc newsList).2).ledger = st.ledger := by
  intro newsList
  induction newsList with
  | nil => intro st acc; rfl
  | cons hd rest ih =>
    intro st acc
    obtain ⟨t, c, ad, link⟩ := hd
    unfold saveLoopV1
    cases hs : save_news_to_file o st t c ad (some link) with
    | mk res st3 =>
      have hl : st3.ledger = st.ledger := by
        have h2 := save_news_to_file_ledger o st t c ad (some link)
        rw [hs] at h2
        exact h2
      cases res with
      | some p => exact (ih _ _).trans hl
      | none => exact (ih _ _).trans hl

/-- Claim C4 counterexample: a date previously recorded in the
Missing-Date Ledger is saved successfully through the directory-listing
fallback of `crawl_and_save_from_directory` (one success counted), yet
the ledger still contains the date afterwards — the fallback save loop
never removes it. -/
theorem c4_counterexample :
    ledgerHasDate c4State cexDate = true ∧
    (crawl_and_save_from_directory cexOracle c4State cexDate).1.success = 1 ∧
    ledgerHasDate (crawl_and_save_from_directory cexOracle c4State cexDate).2 cexDate = true := by
  decide

/-- Claim C4 (amended): only the direct by-date path of
`crawl_and_save_from_directory` clears the Missing-Date Ledger: when
`fetch_news_by_date` yields content for the date and the write succeeds,
the run counts one success and the ledger no longer contains the date —
while the directory-fallback save loop (`saveLoopV1`) never modifies the
ledger at all. -/
theorem c4_amended_direct_path_clears (o : Oracle) (st : CrawlState) (d : Date)
    (t c u : String)
    (hfut : Date.lt o.nowDate d = false)
    (hne : ¬ d = o.nowDate)
    (hex : check_news_file_exists st d = false)
    (hfetch : (fetch_news_by_date o st d 3).1 = some (t, c, u))
    (hsave : o.saveOk = true)
    (hts : TsClean o.ts = true) :
    (crawl_and_save_from_directory o st d).1.success = 1 ∧
    ledgerHasDate (crawl_and_save_from_directory o st d).2 d = false ∧
    ∀ (newsList : List (String × String × Date × String)) (st2 : CrawlState)
      (acc : Stats), ((saveLoopV1 o st2 acc newsList).2).ledger = st2.ledger := by
  rcases hp : fetch_news_by_date o st d 3 with ⟨res, st1⟩
  rw [hp] at hfetch
  have hres : res = some (t, c, u) := hfetch
  subst hres
  obtain ⟨fname, st2, hs, hled2⟩ := save_news_to_file_ok o st1 t c d (some u) hsave
  have hmain : crawl_and_save_from_directory o st d =
      (Stats.mk 1 0 0, remove_date_from_not_exist o.ts st2 d) := by
    unfold crawl_and_save_from_directory
    rw [if_neg (by simp [hfut])]
    rw [if_neg (by simp [hne])]
    rw [if_neg (by simp [hex])]
    simp only [hp, hs]
  rw [hmain]
  exact ⟨rfl, remove_not_has hts, saveLoopV1_ledger o⟩

theorem c4_amended_direct_path_clears_witness :
    (crawl_and_save_from_directory c4Oracle emptyState cexDate).1.success = 1 ∧
    ledgerHasDate (crawl_and_save_from_directory c4Oracle emptyState cexDate).2 cexDate = false ∧
    ∀ (newsList : List (String × String × Date × String)) (st2 : CrawlState)
      (acc : Stats), ((saveLoopV1 c4Oracle st2 acc newsList).2).ledger = st2.ledger :=
  c4_amended_direct_path_clears c4Oracle emptyState cexDate "标题" (formatNewsTotal "正文")
    (build_govopendata_url cexDate) (by decide) (by decide) rfl rfl rfl (by decide)

theorem fileContent_writeFile (st : CrawlState) (f text : String) :
    fileContent (writeFile st f text) f = some text := by
  unfold fileContent writeFile
  have hnone : (st.files.filter (fun p => !(p.1 = f))).find? (fun p => p.1 = f) = none := by
    rw [List.find?_eq_none]
    intro x hx
    have hmem := List.of_mem_filter hx
    simp at hmem
    simp [hmem]
  rw [List.find?_append, hnone]
  simp

/-- Claim C2 counterexample: the v2 crawl persists, for the scenario
date, the `NewsItem.to_markdown` rendering — whose first line is
`# <title>`, not `# <Chinese date> 新闻联播` — so the saved file does not
follow the section-6 template. -/
theorem c2_counterexample :
    fileContent (crawl_and_save_news_items c4Oracle emptyState cexDate).2.2
      (fmtCompact cexDate ++ ".md") = some c2SavedText ∧
    ¬ FollowsTemplateFor cexDate c2SavedText := by
  constructor
  · rfl
  · rintro ⟨ts, content, host, srcUrl, heq⟩
    have h3 : c2SavedText.toList.take 3 = ['#', ' ', '标'] := by decide
    have htake : (specNewsTemplate (fmtCnDate cexDate) ts content host srcUrl).toList.take 3 =
        ['#', ' ', '2'] := rfl
    rw [heq, htake] at h3
    exact absurd h3 (by decide)

/-- Claim C2 (amended): every file persisted through `save_news_to_file`
— the writer used by both paths of `crawl_and_save_from_directory` — is
named `YYYYMMDD.md` and follows the section-6 template (title line
`# <Chinese date> 新闻联播`, the two metadata lines, the content between
two horizontal rules, and the `*来源: …*` / `*URL: …*` footer); the
`NewsItem.to_markdown` format of the v2 crawl is a different layout. -/
theorem c2_amended_save_to_file_template (o : Oracle) (st : CrawlState)
    (t c : String) (d : Date) (su : Option String) (h : o.saveOk = true) :
    ∃ text, (save_news_to_file o st t c d su).1 = some (fmtCompact d ++ ".md") ∧
      fileContent ((save_news_to_file o st t c d su).2) (fmtCompact d ++ ".md") =
        some text ∧
      FollowsTemplateFor d text := by
  unfold save_news_to_file
  rw [if_pos h]
  dsimp only
  exact ⟨_, rfl, fileContent_writeFile _ _ _, ⟨o.ts, c, _, _, rfl⟩⟩

theorem c2_amended_save_to_file_template_witness :
    ∃ text, (save_news_to_file c4Oracle emptyState "标题" "正文" cexDate none).1 =
        some (fmtCompact cexDate ++ ".md") ∧
      fileContent ((save_news_to_file c4Oracle emptyState "标题" "正文" cexDate none).2)
        (fmtCompact cexDate ++ ".md") = some text ∧
      FollowsTemplateFor cexDate text :=
  c2_amended_save_to_file_template c4Oracle emptyState "标题" "正文" cexDate none rfl

theorem cnifdLoop_keys (o : Oracle) (srcUrl : String) (skipExisting : Bool) :
    ∀ (links : List String) (st : CrawlState) (seen : List (String × String)),
      (∀ item ∈ (cnifdLoop o st srcUrl skipExisting seen links).1,
        ¬ (item.title, fmtDashDate item.date) ∈ seen) ∧
      ((cnifdLoop o st srcUrl skipExisting seen links).1).Pairwise
        (fun a b => ¬ (a.title = b.title ∧ fmtDashDate a.date = fmtDashDate b.date)) := by
  intro links
  induction links with
  | nil =>
    intro st seen
    refine ⟨?_, List.Pairwise.nil⟩
    intro item h
    cases h
  | cons link restLinks ih =>
    intro st seen
    simp only [cnifdLoop]
    by_cases hpre : (skipExisting &&
        (match urlDateSearch link.toList with
         | some (y, m, dd) =>
           (match mkValidDate y m dd with
            | some pd => check_news_file_exists st pd
            | none => false)
         | none => false)) = true
    · rw [if_pos hpre]
      exact ih st seen
    · rw [if_neg hpre]
      cases hart : o.article link with
      | none => exact ih (pushNet st (NetEvent.article link)) seen
      | some v =>
        obtain ⟨t, c2, ad⟩ := v
        dsimp only
        by_cases hskip : (skipExisting &&
            check_news_file_exists (pushNet st (NetEvent.article link)) ad) = true
        · rw [if_pos hskip]
          exact ih (pushNet st (NetEvent.article link)) seen
        · rw [if_neg hskip]
          by_cases hkey : (t, fmtDashDate ad) ∈ seen
          · rw [if_pos hkey]
            exact ih (pushNet st (NetEvent.article link)) seen
          · rw [if_neg hkey]
            cases hrec : cnifdLoop o (pushNet st (NetEvent.article link)) srcUrl
                skipExisting ((t, fmtDashDate ad) :: seen) restLinks with
            | mk rest stF =>
              obtain ⟨ih1, ih2⟩ := ih (pushNet st (NetEvent.article link))
                ((t, fmtDashDate ad) :: seen)
              rw [hrec] at ih1 ih2
              constructor
              · intro item hmem
                rcases List.mem_cons.mp hmem with rfl | hmem2
                · exact hkey
                · intro hc
                  exact ih1 item hmem2 (List.mem_cons_of_mem _ hc)
              · refine List.Pairwise.cons ?_ ih2
                intro b hb hcontra
                apply ih1 b hb
                rcases hcontra with ⟨hT, hD⟩
                rw [← hT, ← hD]
                exact List.mem_cons_self _ _

theorem exists_key_cons_none {o : Oracle} {st : CrawlState} {skip : Bool}
    {k : String × String} {l0 : String} {rest : List String}
    (h : linkKey o st skip l0 = none) :
    (∃ l ∈ l0 :: rest, linkKey o st skip l = some k) ↔
    (∃ l ∈ rest, linkKey o st skip l = some k) := by
  constructor
  · rintro ⟨l, hl, hlk⟩
    rcases List.mem_cons.mp hl with rfl | hl2
    · rw [h] at hlk
      cases hlk
    · exact ⟨l, hl2, hlk⟩
  · rintro ⟨l, hl, hlk⟩
    exact ⟨l, List.mem_cons_of_mem _ hl, hlk⟩

theorem exists_key_cons_other {o : Oracle} {st : CrawlState} {skip : Bool}
    {k k0 : String × String} {l0 : String} {rest : List String}
    (h : linkKey o st skip l0 = some k0) (hne : ¬ k = k0) :
    (∃ l ∈ l0 :: rest, linkKey o st skip l = some k) ↔
    (∃ l ∈ rest, linkKey o st skip l = some k) := by
  constructor
  · rintro ⟨l, hl, hlk⟩
    rcases List.mem_cons.mp hl with rfl | hl2
    · rw [h] at hlk
      exact absurd (Option.some.inj hlk).symm hne
    · exact ⟨l, hl2, hlk⟩
  · rintro ⟨l, hl, hlk⟩
    exact ⟨l, List.mem_cons_of_mem _ hl, hlk⟩

theorem cnifdLoop_count (o : Oracle) (srcUrl : String) (skipExisting : Bool)
    (ty td : String) :
    ∀ (links : List String) (st : CrawlState) (seen : List (String × String)),
      ((cnifdLoop o st srcUrl skipExisting seen links).1).countP
        (fun it => decide (it.title = ty) && decide (fmtDashDate it.date = td)) =
      (if ¬ (ty, td) ∈ seen ∧
          ∃ l ∈ links, linkKey o st skipExisting l = some (ty, td)
       then 1 else 0) := by
  intro links
  induction links with
  | nil =>
    intro st seen
    rw [if_neg]
    · rfl
    · rintro ⟨-, l, hl, -⟩
      cases hl
  | cons link restLinks ih =>
    intro st seen
    simp only [cnifdLoop]
    by_cases hpre : (skipExisting && (match urlDateSearch link.toList with
        | some (y, m, dd) =>
          (match mkValidDate y m dd with
           | some pd => check_news_file_exists st pd
           | none => false)
        | none => false)) = true
    · rw [if_pos hpre]
      have hlk : linkKey o st skipExisting link = none := by
        simp only [linkKey]
        rw [if_pos hpre]
      exact (ih st seen).trans
        (if_congr (and_congr_right fun _ => (exists_key_cons_none hlk).symm) rfl rfl)
    · rw [if_neg hpre]
      cases hart : o.article link with
      | none =>
        have hlk : linkKey o st skipExisting link = none := by
          simp only [linkKey]
          rw [if_neg hpre, hart]
        exact (ih (pushNet st (NetEvent.article link)) seen).trans
          (if_congr (and_congr_right fun _ => (exists_key_cons_none hlk).symm) rfl rfl)
      | some v =>
        obtain ⟨t, c2, ad⟩ := v
        dsimp only
        by_cases hskip : (skipExisting &&
            check_news_file_exists (pushNet st (NetEvent.article link)) ad) = true
        · rw [if_pos hskip]
          have hlk : linkKey o st skipExisting link = none := by
            simp only [linkKey]
            rw [if_neg hpre, hart]
            dsimp only
            rw [if_pos (show (skipExisting && check_news_file_exists st ad) = true from hskip)]
          exact (ih (pushNet st (NetEvent.article link)) seen).trans
            (if_congr (and_congr_right fun _ => (exists_key_cons_none hlk).symm) rfl rfl)
        · rw [if_neg hskip]
          have hlk : linkKey o st skipExisting link = some (t, fmtDashDate ad) := by
            simp only [linkKey]
            rw [if_neg hpre, hart]
            dsimp only
            rw [if_neg (show ¬ (skipExisting && check_news_file_exists st ad) = true from hskip)]
          by_cases hkey : (t, fmtDashDate ad) ∈ seen
          · rw [if_pos hkey]
            by_cases heq : (ty, td) = (t, fmtDashDate ad)
            · have hmem : (ty, td) ∈ seen := by
                rw [heq]
                exact hkey
              refine (ih (pushNet st (NetEvent.article link)) seen).trans ?_
              rw [if_neg (fun hc => hc.1 hmem), if_neg (fun hc => hc.1 hmem)]
            · exact (ih (pushNet st (NetEvent.article link)) seen).trans
                (if_congr (and_congr_right fun _ =>
                  (exists_key_cons_other hlk heq).symm) rfl rfl)
          · rw [if_neg hkey]
            cases hrec : cnifdLoop o (pushNet st (NetEvent.article link)) srcUrl
                skipExisting ((t, fmtDashDate ad) :: seen) restLinks with
            | mk restItems stF =>
              have ihr := ih (pushNet st (NetEvent.article link))
                ((t, fmtDashDate ad) :: seen)
              rw [hrec] at ihr
              dsimp only
              rw [List.countP_cons, ihr]
              by_cases heq : (ty, td) = (t, fmtDashDate ad)
              · have hmem : (ty, td) ∈ (t, fmtDashDate ad) :: seen := by
                  rw [heq]
                  exact List.mem_cons_self _ _
                rw [if_neg (fun hc => hc.1 hmem)]
                obtain ⟨hty, htd⟩ := Prod.mk.injEq .. ▸ heq
                rw [if_pos (by simp [hty, htd])]
                rw [if_pos ⟨fun hm => hkey (by rw [← heq]; exact hm),
                  ⟨link, List.mem_cons_self _ _, by rw [hlk, heq]⟩⟩]
              · have hne2 : ¬ (t = ty ∧ fmtDashDate ad = td) :=
                  fun hc => heq (by rw [hc.1, hc.2])
                have hpit : (decide (t = ty) && decide (fmtDashDate ad = td)) = false := by
                  cases h1 : decide (t = ty) with
                  | false => rfl
                  | true =>
                    cases h2 : decide (fmtDashDate ad = td) with
                    | false => rfl
                    | true => exact absurd ⟨of_decide_eq_true h1, of_decide_eq_true h2⟩ hne2
                rw [show (decide ((NewsItem.mk t c2 ad link (some srcUrl) (some o.ts)).title = ty) &&
                    decide (fmtDashDate (NewsItem.mk t c2 ad link (some srcUrl) (some o.ts)).date = td)) =
                    (decide (t = ty) && decide (fmtDashDate ad = td)) from rfl]
                rw [hpit, if_neg Bool.false_ne_true, Nat.add_zero]
                refine if_congr (and_congr ?_ ((exists_key_cons_other hlk heq).symm)) rfl rfl
                exact not_congr ⟨fun hm => (List.mem_cons.mp hm).resolve_left heq,
                  List.mem_cons_of_mem _⟩

/-- Claim C9: the NewsItem list returned by
`crawl_news_items_from_directory` is deduplicated by the
(title, `%Y-%m-%d` date) pair — no two returned items share both the same
title and the same resolved date, and for every key that some link
surviving the loop's pre-checks resolves to, exactly one NewsItem with
that key is returned (one, not zero).  In particular, in the spec's
scenario — three directory links of which the first two resolve to the
identical title and the same calendar date — exactly the first of the two
duplicates and the third link survive. -/
theorem c9_directory_dedup (o : Oracle) (st : CrawlState) (d : Date)
    (skipExisting : Bool) :
    ((crawl_news_items_from_directory o st d skipExisting).1).Pairwise
      (fun a b => ¬ (a.title = b.title ∧ fmtDashDate a.date = fmtDashDate b.date)) ∧
    ((crawl_news_items_from_directory o st d skipExisting).1).Pairwise
      (fun a b => ¬ (a.title = b.title ∧ a.date = b.date)) ∧
    (∀ ty td : String,
      ((crawl_news_items_from_directory o st d skipExisting).1).countP
        (fun it => decide (it.title = ty) && decide (fmtDashDate it.date = td)) =
      (if ¬ (fetch_news_links_from_directory o st).1 = [] ∧
          ∃ l ∈ dedupLinks [] (fetch_news_links_from_directory o st).1,
            linkKey o (fetch_news_links_from_directory o st).2 skipExisting l =
              some (ty, td)
       then 1 else 0)) ∧
    ((crawl_news_items_from_directory c9Oracle emptyState cexDate true).1).map
      (fun it => (it.title, it.content)) = [("标题", "甲"), ("标题二", "丙")] := by
  have hkeys : ((crawl_news_items_from_directory o st d skipExisting).1).Pairwise
      (fun a b => ¬ (a.title = b.title ∧ fmtDashDate a.date = fmtDashDate b.date)) := by
    unfold crawl_news_items_from_directory
    cases hf : fetch_news_links_from_directory o st with
    | mk links st1 =>
      dsimp only
      by_cases hl : links = []
      · rw [if_pos hl]
        exact List.Pairwise.nil
      · rw [if_neg hl]
        exact (cnifdLoop_keys o (build_directory_url d true) skipExisting
          (dedupLinks [] links) st1 []).2
  refine ⟨hkeys, List.Pairwise.imp ?_ hkeys, ?_, by decide⟩
  · intro a b h hc
    exact h ⟨hc.1, by rw [hc.2]⟩
  · intro ty td
    unfold crawl_news_items_from_directory
    cases hf : fetch_news_links_from_directory o st with
    | mk links st1 =>
      dsimp only
      by_cases hl : links = []
      · rw [if_pos hl]
        rw [if_neg]
        · rfl
        · rintro ⟨hne, -⟩
          exact hne hl
      · rw [if_neg hl]
        rw [cnifdLoop_count o (build_directory_url d true) skipExisting ty td
          (dedupLinks [] links) st1 []]
        exact if_congr ⟨fun hc => ⟨hl, hc.2⟩, fun hc => ⟨List.not_mem_nil _, hc.2⟩⟩ rfl rfl
